import Mathlib

/-!
# Verification of the Biofilter/LOKI core against its specification

This file gives a shallow embedding, in Lean 4, of the parts of the
Biofilter/LOKI code base (files `loki/loki_db.py`, `biofilter/biofilter.py`
and `loki/util/liftOver.py`) that the specification's testable claims are
about, together with theorems settling each claim:

* the SNP merge resolution `generateCurrentRSesByRSes`;
* the region zone index built by `updateRegionZones`;
* the SNP input-filter `union`/`intersect` contract;
* the liftOver chain engine (`_generateApplicableLiftOverChains`,
  `_liftOverRegionUsingChains`, `generateLiftOverRegions`) and the older
  standalone implementation in `liftOver.py`;
* the query-builder constraint placement in `buildQuery`;
* the schema audit `auditDatabaseObjects`;
* the PARIS feature binning and permutation scoring.

Machine integers are embedded as `Int`/`Nat` (Python integers are unbounded,
so no wrap-around modelling is needed).  SQL tables are embedded as Lean
lists of rows; row streams produced by generators are embedded as lists.
The single floating-point comparison in the code,
`mapped_size / float(n) >= 0.95`, is embedded as the exact rational test
`20 * mapped_size ≥ 19 * n`: both sides of the Python comparison are
IEEE-754 doubles obtained by correctly rounding `mapped_size / n` and
`0.95`, and for the magnitudes that occur (genomic coordinates, well below
`2^40`) the rounded comparison agrees with the exact rational one.
-/

namespace LOKI

/-! ## SNP merge resolution (`Database.generateCurrentRSesByRSes`,
`loki_db.py` lines 1899-1932)

The SQL is
`SELECT i.rsMerged, i.extra, COALESCE(sm.rsCurrent, i.rsMerged) FROM
 (SELECT ? AS rsMerged, ? AS extra) AS i
 LEFT JOIN db.snp_merge AS sm USING (rsMerged)`,
run via `executemany` over the input rows.  A LEFT JOIN yields one row per
matching `snp_merge` row, or a single row with NULL (COALESCEd back to the
input rs) when none matches. -/

/-- A row of the `snp_merge` table: `(rsMerged, rsCurrent)`.
The `source_id` column plays no role in the join and is omitted. -/
abbrev MergeRow := Nat × Nat

/-- Embedding of `Database.generateCurrentRSesByRSes` (without the tally):
for each input `(rs, extra)` the LEFT JOIN against `snp_merge` yields
`(rs, extra, m.rsCurrent)` for every merge row `m` with `m.rsMerged = rs`,
or the single row `(rs, extra, rs)` when no merge row matches. -/
def generateCurrentRSesByRSes (merge : List MergeRow) (rses : List (Nat × String)) :
    List (Nat × String × Nat) :=
  rses.flatMap (fun i =>
    let ms := merge.filter (fun m => m.1 = i.1)
    if ms.isEmpty then [(i.1, i.2, i.1)]
    else ms.map (fun m => (i.1, i.2, m.2)))

/-- Embedding of the tally loop inside `generateCurrentRSesByRSes`:
`numMerge` is incremented exactly on the yielded rows whose `rsCurrent`
(third component) differs from the input `rsMerged` (first component). -/
def currentRSesMergeTally (merge : List MergeRow) (rses : List (Nat × String)) : Nat :=
  (generateCurrentRSesByRSes merge rses).foldl
    (fun n r => if r.2.2 ≠ r.1 then n + 1 else n) 0

/-- One step of following `rsMerged → rsCurrent` through the `snp_merge`
table (the spec's "following" relation); `rs` is a fixed point of the
resolution exactly when `resolveMergeStep merge rs = rs`. -/
def resolveMergeStep (merge : List MergeRow) (rs : Nat) : Nat :=
  match merge.find? (fun m => m.1 = rs) with
  | some m => m.2
  | none => rs

end LOKI

namespace Biofilter

/-! ## Region zone index (`Biofilter.updateRegionZones`,
`biofilter.py` lines 574-631)

The method first normalizes region orientation
(`UPDATE region SET posMin = posMax, posMax = posMin WHERE posMin > posMax`),
deletes all `region_zone` rows, and then inserts
`(rowid, chr, z)` for every region row and every
`z in range(posMin//size, posMax//size + 1)`, with `INSERT OR IGNORE`
deduplicating on the `(chr, zone, region_rowid)` primary key. -/

/-- A row of a `region` filter table: `(rowid, chr, posMin, posMax)`. -/
abbrev RegionRow := Nat × Nat × Nat × Nat

/-- A row of the `region_zone` table: `(region_rowid, chr, zone)`. -/
abbrev ZoneRow := Nat × Nat × Nat

/-- The orientation-normalization pass of `updateRegionZones`
(`UPDATE ... SET posMin = posMax, posMax = posMin WHERE posMin > posMax`). -/
def normalizeRegion (r : RegionRow) : RegionRow :=
  if r.2.2.1 > r.2.2.2 then (r.1, r.2.1, r.2.2.2, r.2.2.1) else r

/-- The `_zones` generator of `updateRegionZones`: for a (normalized) region
row, one zone row per `z in range(posMin//size, posMax//size + 1)`. -/
def regionZones (size : Nat) (r : RegionRow) : List ZoneRow :=
  (List.range (r.2.2.2 / size - r.2.2.1 / size + 1)).map
    (fun i => (r.1, r.2.1, r.2.2.1 / size + i))

/-- `INSERT OR IGNORE` on the `(chr, zone, region_rowid)` primary key:
keep the first occurrence of each triple. -/
def dedupZoneRows (zs : List ZoneRow) : List ZoneRow :=
  zs.foldl (fun acc z => if z ∈ acc then acc else acc ++ [z]) []

/-- Embedding of `Biofilter.updateRegionZones`: normalize all regions, then
rebuild the `region_zone` table from scratch. -/
def updateRegionZones (size : Nat) (regions : List RegionRow) : List ZoneRow :=
  dedupZoneRows ((regions.map normalizeRegion).flatMap (regionZones size))

/-! ## SNP input filter (`Biofilter.unionInputSNPs` / `intersectInputSNPs`,
`biofilter.py` lines 1263-1316)

`unionInputSNPs` inserts `('rs'||?1, ?2, ?3)` rows (label, extra, rs) for
each `(rsInput, extra, rsCurrent)` produced by the merge-resolution
generator, then increments `self._inputFilters[db]['snp']`.  The embedding
follows the `allow_ambiguous_snps == 'yes'` path of
`generateMergedFilteredSNPs` (lines 812-814), in which the generator output
is exactly `generateCurrentRSesByRSes(snps)`.

`intersectInputSNPs` falls back to union when the filter counter is zero;
otherwise it sets `flag = 0` on every row, sets `flag = 1` where
`rs = ?3` for each resolved input row, deletes rows with `flag = 0`, and
increments the counter. -/

/-- A row of the `snp` filter table: `(label, extra, rs)`.  The `flag`
column is carried separately while the intersect update runs. -/
structure SnpRow where
  label : String
  extra : String
  rs : Nat
  deriving DecidableEq, Repr

/-- The per-database SNP filter: its rows and the
`inputFilters[db]['snp']` counter. -/
structure SnpFilter where
  rows : List SnpRow
  counter : Nat
  deriving DecidableEq, Repr

/-- Embedding of `Biofilter.unionInputSNPs` (with `allow_ambiguous_snps`
set, so the inserted rows come straight from
`generateCurrentRSesByRSes`): insert one `('rs'||rsInput, extra, rsCurrent)`
row per generator row and bump the filter counter. -/
def unionInputSNPs (merge : List LOKI.MergeRow) (st : SnpFilter)
    (snps : List (Nat × String)) : SnpFilter :=
  { rows := st.rows ++ (LOKI.generateCurrentRSesByRSes merge snps).map
      (fun r => { label := "rs" ++ toString r.1, extra := r.2.1, rs := r.2.2 })
    counter := st.counter + 1 }

/-- `UPDATE snp SET flag = 1 WHERE (1 OR ?1 OR ?2) AND rs = ?3`, executed
once per resolved input row: after the initial `flag = 0` sweep, a row's
flag ends up 1 exactly when some resolved input rs matches it. -/
def setSnpFlags (current : List Nat) (rows : List (SnpRow × Bool)) :
    List (SnpRow × Bool) :=
  current.foldl
    (fun acc rsc => acc.map (fun p => if p.1.rs = rsc then (p.1, true) else p))
    rows

/-- Embedding of `Biofilter.intersectInputSNPs`: union when the filter
counter is zero, otherwise the flag-clear / flag-set / delete cycle,
and a counter bump either way. -/
def intersectInputSNPs (merge : List LOKI.MergeRow) (st : SnpFilter)
    (snps : List (Nat × String)) : SnpFilter :=
  if st.counter = 0 then unionInputSNPs merge st snps
  else
    let current := (LOKI.generateCurrentRSesByRSes merge snps).map (fun r => r.2.2)
    let flagged := setSnpFlags current (st.rows.map (fun r => (r, false)))
    { rows := (flagged.filter (fun p => p.2)).map (fun p => p.1)
      counter := st.counter + 1 }

end Biofilter

namespace LOKI

/-! ## LiftOver chain engine (`loki_db.py` lines 2619-2823)

`_generateApplicableLiftOverChains` walks the cached chain index for the
query chromosome: chain keys sorted score-descending, and for each chain a
list of segments `(old_start, old_end, new_start)` sorted by `old_start`
(the SQL orders by `c.old_chr, score DESC, cd.old_start`).  For an
overlapping chain it seeds a cursor with
`bisect.bisect(data, (start, maxsize, maxsize)) - 1` — on a sorted list
this is (number of segments with `old_start ≤ start`) − 1 — advances it
past segments with `old_end < start`, and yields segments while
`old_start ≤ end`. -/

/-- A `chain_data` segment: `(old_start, old_end, new_start)`. -/
structure Segment where
  oldStart : Int
  oldEnd : Int
  newStart : Int
  deriving DecidableEq, Repr

/-- A `chain` row as it appears in the cache key tuple
`(score, old_start, old_end, new_start, is_fwd, new_chr, chain_id)`. -/
structure Chain where
  score : Int
  oldStart : Int
  oldEnd : Int
  newStart : Int
  isFwd : Bool
  newChr : Int
  chainId : Int
  deriving DecidableEq, Repr

/-- A tuple yielded by `_generateApplicableLiftOverChains`:
`(chain_id, seg.old_start, seg.old_end, seg.new_start, is_fwd, new_chr)`. -/
structure CandSeg where
  chainId : Int
  oldStart : Int
  oldEnd : Int
  newStart : Int
  isFwd : Bool
  newChr : Int
  deriving DecidableEq, Repr

/-- The segments of one chain yielded by
`_generateApplicableLiftOverChains` for query `[start, end]`:
`idx = bisect.bisect(data, (start, maxsize, maxsize)) - 1` (on the sorted
segment list this is `(count of old_start ≤ start) - 1`, clamped at `-1`
which the skip loop immediately moves to `0`), then
`while idx < 0 or data[idx].old_end < start: idx += 1`, then yield while
`data[idx].old_start ≤ end`.  If the skip loop would run off the end of
the list (a chain none of whose remaining segments reaches `start`) the
Python code would raise; the embedding yields no segments there. -/
def chainApplicableSegs (data : List Segment) (start stop : Int) : List Segment :=
  let k := data.countP (fun s => s.oldStart ≤ start)
  ((data.drop (k - 1)).dropWhile (fun s => s.oldEnd < start)).takeWhile
    (fun s => s.oldStart ≤ stop)

/-- Embedding of `_generateApplicableLiftOverChains` for a fixed
chromosome: the chain index is the score-descending list of
`(chain, segments)` pairs for that chromosome; chains whose
`[old_start, old_end]` does not overlap `[start, end]` are skipped, and
the others contribute their applicable segments in order. -/
def generateApplicableLiftOverChains (chains : List (Chain × List Segment))
    (start stop : Int) : List CandSeg :=
  chains.flatMap (fun c =>
    if start ≤ c.1.oldEnd ∧ stop ≥ c.1.oldStart then
      (chainApplicableSegs c.2 start stop).map (fun s =>
        { chainId := c.1.chainId, oldStart := s.oldStart, oldEnd := s.oldEnd,
          newStart := s.newStart, isFwd := c.1.isFwd, newChr := c.1.newChr })
    else [])

/-! ### `_liftOverRegionUsingChains` (`loki_db.py` lines 2690-2745) -/

/-- `front_diff = max(0, min(start - first_seg[1], first_seg[2] - first_seg[1]))`. -/
def liftFrontDiff (start : Int) (firstSeg : CandSeg) : Int :=
  max 0 (min (start - firstSeg.oldStart) (firstSeg.oldEnd - firstSeg.oldStart))

/-- `end_diff = max(0, min(end - end_seg[1], end_seg[2] - end_seg[1]))`. -/
def liftEndDiff (stop : Int) (endSeg : CandSeg) : Int :=
  max 0 (min (stop - endSeg.oldStart) (endSeg.oldEnd - endSeg.oldStart))

/-- `mapped_size = total_mapped_sz - front_diff - (end_seg[2] - end_seg[1] + 1) + end_diff + 1`. -/
def liftMappedSize (start stop : Int) (firstSeg endSeg : CandSeg)
    (totalMappedSz : Int) : Int :=
  totalMappedSz - liftFrontDiff start firstSeg
    - (endSeg.oldEnd - endSeg.oldStart + 1) + liftEndDiff stop endSeg + 1

/-- Embedding of `Database._liftOverRegionUsingChains`, producing
`(new_chr, new_start, new_end)` when the mapped fraction reaches 95%.
The `label`/`extra` pass-through fields are dropped; the acceptance test
`mapped_size / float(end - start + 1) >= 0.95` is embedded exactly as
`20 * mapped_size ≥ 19 * (end - start + 1)` (see the file header). -/
def liftOverRegionUsingChains (start stop : Int) (firstSeg endSeg : CandSeg)
    (totalMappedSz : Int) : Option (Int × Int × Int) :=
  let frontDiff := liftFrontDiff start firstSeg
  let endDiff := liftEndDiff stop endSeg
  let newStart := if firstSeg.isFwd then firstSeg.newStart + frontDiff
    else endSeg.newStart - endDiff
  let newEnd := if firstSeg.isFwd then endSeg.newStart + endDiff
    else firstSeg.newStart - frontDiff
  if 20 * liftMappedSize start stop firstSeg endSeg totalMappedSz ≥
      19 * (stop - start + 1) then
    some (firstSeg.newChr, newStart, newEnd)
  else none

/-! ### The per-region chain loop of `generateLiftOverRegions`
(`loki_db.py` lines 2775-2817) -/

/-- The body of the segment loop: the accumulator holds the current
chain's first segment, last-seen segment and accumulated
`total_mapped_sz`; when a segment of a different chain arrives the
accumulated chain is evaluated and, on failure, the accumulator restarts
with the new segment.  In this implementation `curr_chain` always equals
`first_seg`'s chain id, so it is not tracked separately. -/
def liftLoop (start stop : Int) (firstSeg endSeg : CandSeg) (total : Int) :
    List CandSeg → Option (Int × Int × Int)
  | [] => liftOverRegionUsingChains start stop firstSeg endSeg total
  | s :: rest =>
    if s.chainId ≠ firstSeg.chainId then
      match liftOverRegionUsingChains start stop firstSeg endSeg total with
      | some r => some r
      | none => liftLoop start stop s s (s.oldEnd - s.oldStart + 1) rest
    else
      liftLoop start stop firstSeg s (total + s.oldEnd - s.oldStart + 1) rest

/-- The whole chain-application loop for one region: no candidate segments
means no mapping. -/
def liftRegionChains (start stop : Int) : List CandSeg → Option (Int × Int × Int)
  | [] => none
  | s :: rest => liftLoop start stop s s (s.oldEnd - s.oldStart + 1) rest

/-- Embedding of one iteration of `Database.generateLiftOverRegions` for a
region `(chrom, start, end)` against the chain index of its chromosome:
swap out-of-order bounds, run the chain loop, and collapse the result to a
point when the input was a point (`start == end`). -/
def generateLiftOverRegion (chains : List (Chain × List Segment))
    (start0 stop0 : Int) : Option (Int × Int × Int) :=
  let start := if start0 > stop0 then stop0 else start0
  let stop := if start0 > stop0 then start0 else stop0
  let isRegion := start ≠ stop
  match liftRegionChains start stop
      (generateApplicableLiftOverChains chains start stop) with
  | none => none
  | some r => some (r.1, r.2.1, if isRegion then r.2.2 else r.2.1)

end LOKI

/-! ## The standalone liftOver implementation (`loki/util/liftOver.py`)

This is the older Python-2 implementation of the same algorithm.  It
differs from the database implementation in several places:

* `_findChains` (cached path) seeds its cursor with
  `idx = bisect.bisect(data, (start, maxint, maxint)); if idx: idx -= 1`
  (the same start index as the database version), but has no skip loop for
  segments ending before `start`, and yields while `old_start < end`
  (strict, versus `≤`).  The guard
  `if idx < len(data) - 1 and start == data[idx + 1]` compares an `int`
  to a `tuple`, which is always `False` in Python 2, so that branch is
  dead and is not embedded.
* sizes are accumulated as `old_end - old_start` (no `+ 1`), and the
  mapped-fraction test divides by `end - start` (no `+ 1`);
* `liftRegion` turns a point query into `end = start + 1`;
* on a chain switch whose evaluation fails, `curr_chain` is NOT updated,
  so each later segment with a chain id different from the stale
  `curr_chain` is evaluated on its own. -/

namespace StandaloneLiftOver

open LOKI (Segment Chain CandSeg)

/-- Embedding of `liftOver._findChains` (cached path) for one chain's
segment list. -/
def chainFindSegs (data : List Segment) (start stop : Int) : List Segment :=
  let k := data.countP (fun s => s.oldStart ≤ start)
  (data.drop (k - 1)).takeWhile (fun s => s.oldStart < stop)

/-- Embedding of `liftOver._findChains` for a fixed chromosome over the
score-descending chain index. -/
def findChains (chains : List (Chain × List Segment)) (start stop : Int) :
    List CandSeg :=
  chains.flatMap (fun c =>
    if start ≤ c.1.oldEnd ∧ stop ≥ c.1.oldStart then
      (chainFindSegs c.2 start stop).map (fun s =>
        { chainId := c.1.chainId, oldStart := s.oldStart, oldEnd := s.oldEnd,
          newStart := s.newStart, isFwd := c.1.isFwd, newChr := c.1.newChr })
    else [])

/-- `front_diff` of `liftOver._mapRegion` — the same formula as the
database implementation's. -/
def frontDiff (start : Int) (firstSeg : CandSeg) : Int :=
  max 0 (min (start - firstSeg.oldStart) (firstSeg.oldEnd - firstSeg.oldStart))

/-- `end_diff` of `liftOver._mapRegion`. -/
def endDiff (stop : Int) (endSeg : CandSeg) : Int :=
  max 0 (min (stop - endSeg.oldStart) (endSeg.oldEnd - endSeg.oldStart))

/-- `mapped_size = total_mapped_sz - front_diff - (end_seg[2] - end_seg[1]) + end_diff`
(half-open accounting: no `+ 1` terms). -/
def mappedSize (start stop : Int) (firstSeg endSeg : CandSeg) (total : Int) : Int :=
  total - frontDiff start firstSeg - (endSeg.oldEnd - endSeg.oldStart) +
    endDiff stop endSeg

/-- Embedding of `liftOver._mapRegion`; the test
`mapped_size / float(region[1] - region[0]) >= 0.95` is embedded exactly
as `20 * mapped_size ≥ 19 * (end - start)`. -/
def mapRegion (start stop : Int) (firstSeg endSeg : CandSeg) (total : Int) :
    Option (Int × Int × Int) :=
  let fd := frontDiff start firstSeg
  let ed := endDiff stop endSeg
  let newStart := if firstSeg.isFwd then firstSeg.newStart + fd
    else endSeg.newStart - ed
  let newEnd := if firstSeg.isFwd then endSeg.newStart + ed
    else firstSeg.newStart - fd
  if 20 * mappedSize start stop firstSeg endSeg total ≥ 19 * (stop - start) then
    some (firstSeg.newChr, newStart, newEnd)
  else none

/-- The segment loop of `liftOver.liftRegion`.  `curr` is the stale
`curr_chain` variable: it is set only when the accumulator is seeded from
scratch at the top of the loop, never on a failed chain switch. -/
def liftLoop (start stop : Int) (curr : Int) (firstSeg endSeg : CandSeg)
    (total : Int) : List CandSeg → Option (Int × Int × Int)
  | [] => mapRegion start stop firstSeg endSeg total
  | s :: rest =>
    if s.chainId ≠ curr then
      match mapRegion start stop firstSeg endSeg total with
      | some r => some r
      | none => liftLoop start stop curr s s (s.oldEnd - s.oldStart) rest
    else
      liftLoop start stop curr firstSeg s (total + s.oldEnd - s.oldStart) rest

/-- Embedding of `liftOver.liftRegion`: swap out-of-order bounds, widen a
point query to `end = start + 1`, run the loop over `_findChains`, and
collapse an accepted point mapping to
`(new_chr, new_start, new_start)`. -/
def liftRegion (chains : List (Chain × List Segment)) (start0 stop0 : Int) :
    Option (Int × Int × Int) :=
  let start := if start0 > stop0 then stop0 else start0
  let stop := if start0 > stop0 then start0
    else if start0 = stop0 then start0 + 1 else stop0
  let isRegion := start0 ≠ stop0
  let res := match findChains chains start stop with
    | [] => none
    | s :: rest => liftLoop start stop s.chainId s s (s.oldEnd - s.oldStart) rest
  match res with
  | none => none
  | some r => some (r.1, r.2.1, if isRegion then r.2.2 else r.2.1)

end StandaloneLiftOver

namespace Biofilter

/-! ## PARIS feature binning (`Biofilter.generatePARISResults`,
`biofilter.py` lines 2142-2184)

After the master feature list has been built in descending count order
(randomized within each count by `random.shuffle`; the embedding takes the
resulting list as an input), the code pops features off the END of the
list: first every feature of count 0 into bin 0, then every feature of
count 1 into bin 1, and then distributes the `n` remaining features into
`count = max(1, int(0.5 + float(n) / paris_bin_size))` bins, the first
`n - count*(n//count)` of which receive one extra feature. -/

/-- `max(1, int(0.5 + float(n) / binSize))`: the number of bins for the
remaining features.  For the magnitudes involved the float expression
equals the exact `⌊n/binSize + 1/2⌋ = (2n + binSize) / (2 binSize)`
(and when `n/binSize + 1/2` is an integer, `(2m+1)·binSize = 2n` makes
`n/binSize` exactly representable, so the float computation is exact). -/
def parisBinCount (n binSize : Nat) : Nat :=
  max 1 ((2 * n + binSize) / (2 * binSize))

/-- The sizes of the distributed bins, in pop order:
`size = n // count` each, plus one extra for the first
`extra = n - count * size` bins. -/
def parisChunkSizes (n binSize : Nat) : List Nat :=
  let count := parisBinCount n binSize
  let size := n / count
  let extra := n - count * size
  (List.range count).map (fun i => size + if i < extra then 1 else 0)

/-- Split a list into consecutive chunks of the given sizes. -/
def splitSizes (asc : List Nat) : List Nat → List (List Nat)
  | [] => []
  | k :: rest => asc.take k :: splitSizes (asc.drop k) rest

/-- The three stages of the PARIS binning: the dedicated count-0 bin, the
dedicated count-1 bin, and the distributed bins for the remaining
features (each bin lists the features in the order they were popped). -/
structure ParisBins where
  bin0 : List Nat
  bin1 : List Nat
  rest : List (List Nat)
  deriving DecidableEq, Repr

/-- Embedding of the binning block of `generatePARISResults`.
`count` gives each feature's result-locus count (`featureData[fid][0]`);
`listFeatures` is the master list in descending count order.  Popping
from the end of the descending list is embedded as reading the reversed
(ascending) list front to back. -/
def parisBinFeatures (count : Nat → Nat) (listFeatures : List Nat)
    (binSize : Nat) : ParisBins :=
  let asc := listFeatures.reverse
  let b0 := asc.takeWhile (fun f => count f = 0)
  let asc1 := asc.dropWhile (fun f => count f = 0)
  let b1 := asc1.takeWhile (fun f => count f = 1)
  let asc2 := asc1.dropWhile (fun f => count f = 1)
  { bin0 := b0, bin1 := b1,
    rest := splitSizes asc2 (parisChunkSizes asc2.length binSize) }

/-! ## PARIS permutation scoring (`Biofilter.getPARISPermutationScore`,
`biofilter.py` lines 1953-1987)

`realScore` counts the real features whose bin is truthy (present and
nonzero) and whose significant-count is truthy (nonzero).  If it is zero
the function returns `numPermutations` before touching the RNG.
Otherwise each of `numPermutations` rounds draws `random.sample`s per
used bin and scores them; a round with `permScore >= realScore` adds one
to the total, and when `maxScore` is nonzero the loop breaks as soon as
the total reaches it.  The embedding abstracts `random.sample` as an
oracle `sample : permutation index → bin → drawn features`. -/

/-- `realScore = sum(1 for f in realFeatures if featureBin.get(f) and featureData[f][1])`.
Python truthiness of `featureBin.get(f)`: the key is present and its
value is nonzero. -/
def parisRealScore (featureData : Nat → Nat × Nat) (featureBin : Nat → Option Nat)
    (realFeatures : List Nat) : Nat :=
  realFeatures.countP (fun f =>
    (featureBin f).getD 0 ≠ 0 ∧ (featureData f).2 ≠ 0)

/-- The distinct truthy bins of the real features — the key set of
`binDraws = Counter(featureBin[f] for f in realFeatures if featureBin.get(f))`. -/
def parisBinsUsed (featureBin : Nat → Option Nat) (realFeatures : List Nat) :
    List Nat :=
  ((realFeatures.filterMap featureBin).filter (fun b => b ≠ 0)).dedup

/-- One permutation round's score: per used bin, the number of significant
features among the oracle's draw for that bin. -/
def parisPermScore (featureData : Nat → Nat × Nat) (sample : Nat → Nat → List Nat)
    (binsUsed : List Nat) (p : Nat) : Nat :=
  (binsUsed.map (fun b => (sample p b).countP (fun f => (featureData f).2 ≠ 0))).sum

/-- The permutation loop with its early exit: state is
`(totalScore, broken)`; a successful round increments the total and, when
`maxScore` is nonzero and reached, sets the break flag. -/
def parisPermutationFold (succeeds : Nat → Bool) (numPermutations maxScore : Nat) :
    Nat :=
  ((List.range numPermutations).foldl
    (fun (acc : Nat × Bool) p =>
      if acc.2 then acc
      else if succeeds p then
        (acc.1 + 1, decide (maxScore ≠ 0) && decide (acc.1 + 1 ≥ maxScore))
      else acc)
    (0, false)).1

/-- Embedding of `Biofilter.getPARISPermutationScore` with the RNG
abstracted as the `sample` oracle. -/
def getPARISPermutationScore (featureData : Nat → Nat × Nat)
    (featureBin : Nat → Option Nat) (sample : Nat → Nat → List Nat)
    (realFeatures : List Nat) (numPermutations maxScore : Nat) : Nat :=
  let realScore := parisRealScore featureData featureBin realFeatures
  if realScore < 1 then numPermutations
  else
    let binsUsed := parisBinsUsed featureBin realFeatures
    parisPermutationFold
      (fun p => decide (parisPermScore featureData sample binsUsed p ≥ realScore))
      numPermutations maxScore

end Biofilter

namespace Biofilter

/-! ## Query-builder constraint placement (`Biofilter.buildQuery`,
`biofilter.py` lines 3182-3225)

A query under construction holds a FROM set, an insertion-ordered
`OrderedDict` of LEFT JOIN aliases (each with its set of ON conditions),
and a WHERE set.  The embedding keeps the LEFT JOIN dict as an ordered
association list and the condition sets as lists with set-style insert. -/

/-- The parts of the `query` dict that constraint placement touches. -/
structure SqlQuery where
  fromSet : List String
  leftJoin : List (String × List String)
  whereSet : List String
  deriving DecidableEq, Repr

/-- The LEFT JOIN aliases in insertion order (`query['LEFT JOIN'].keys()`). -/
def SqlQuery.ljKeys (q : SqlQuery) : List String := q.leftJoin.map (fun p => p.1)

/-- Python `set.add` / `set.update` with one element: no duplicates. -/
def addCond (conds : List String) (c : String) : List String :=
  if c ∈ conds then conds else conds ++ [c]

/-- `query['LEFT JOIN'][alias].update({cond})`. -/
def SqlQuery.addToON (q : SqlQuery) (a c : String) : SqlQuery :=
  { q with leftJoin :=
      q.leftJoin.map (fun p => if p.1 = a then (p.1, addCond p.2 c) else p) }

/-- `query['WHERE'].update({cond})`. -/
def SqlQuery.addToWhere (q : SqlQuery) (c : String) : SqlQuery :=
  { q with whereSet := addCond q.whereSet c }

/-- `list(query['LEFT JOIN'].keys()).index(alias)`. -/
def SqlQuery.ljIndex (q : SqlQuery) (a : String) : Nat := q.ljKeys.indexOf a

/-- The ON conditions currently attached to a LEFT JOIN alias. -/
def SqlQuery.onConds (q : SqlQuery) (a : String) : List String :=
  match q.leftJoin.find? (fun p => p.1 = a) with
  | some p => p.2
  | none => []

/-- Embedding of the alias-pair constraint placement
(`biofilter.py` lines 3202-3225): the `if/elif` chain deciding whether a
condition formatted for the pair `(aliasLeft, aliasRight)` goes to WHERE,
to the ON clause of the LEFT JOIN member, or — when both members are
LEFT JOIN aliases — to the ON clause of the one with the larger
insertion index. -/
def addPairConstraint (q : SqlQuery) (aL aR c : String) : SqlQuery :=
  if aL = aR then q
  else if aL ∈ q.fromSet ∧ aR ∈ q.fromSet then q.addToWhere c
  else if aL ∈ q.fromSet ∧ aR ∈ q.ljKeys then q.addToON aR c
  else if aL ∈ q.ljKeys ∧ aR ∈ q.fromSet then q.addToON aL c
  else if aL ∈ q.ljKeys ∧ aR ∈ q.ljKeys then
    if q.ljIndex aL > q.ljIndex aR then q.addToON aL c else q.addToON aR c
  else q

/-- Embedding of the per-alias constraint placement
(`biofilter.py` lines 3183-3189): a condition for a single alias goes to
WHERE when the alias is in the FROM set and to the alias's ON clause when
it is a LEFT JOIN alias. -/
def addAliasConstraint (q : SqlQuery) (a c : String) : SqlQuery :=
  let q1 := if a ∈ q.fromSet then q.addToWhere c else q
  if a ∈ q1.ljKeys then q1.addToON a c else q1

end Biofilter

namespace LOKI

/-! ## Schema audit (`Database.auditDatabaseObjects`,
`loki_db.py` lines 1224-1332), with `doTables`, `doIndecies` on and the
default full table/index lists.

`sqlite_master` definitions are whitespace-normalized on read
(`" ".join(objDef.strip().split())`) and compared against
`"CREATE TABLE `tbl` " + normalized(schema ddl)` (resp.
`"CREATE INDEX `idx` ON `tbl` " + normalized(index ddl)`).  Repairs go
through `dropDatabaseTables` / `createDatabaseTables` /
`createDatabaseIndices` (`loki_db.py` lines 1042-1180); dropping a table
in SQLite also drops its indices, and `createDatabaseTables` re-inserts
the schema's seed rows with `INSERT OR IGNORE`. -/

/-- Split a string into its maximal whitespace-free words (Python's
`s.split()` with no argument, which also strips). -/
def splitWords (s : String) : List String :=
  ((s.data.foldr
      (fun c acc =>
        if c.isWhitespace then [] :: acc
        else (c :: acc.headD []) :: acc.tail)
      [[]]).filter (fun w => w ≠ [])).map (fun w => String.mk w)

/-- `" ".join(s.strip().split())`: collapse all whitespace runs. -/
def squish (s : String) : String :=
  " ".intercalate (splitWords s)

/-- The declared schema of one table: its DDL, seed rows, and indices
(name, DDL).  Rows are abstracted as strings. -/
structure TableSchema where
  ddl : String
  seedData : List String
  index : List (String × String)
  deriving DecidableEq, Repr

/-- The live state of one table: stored `CREATE TABLE` text, rows, and
stored indices (name, `CREATE INDEX` text). -/
structure TableState where
  createSql : String
  rows : List String
  indexSql : List (String × String)
  deriving DecidableEq, Repr

/-- The expected (normalized) `sqlite_master` text for a table. -/
def expectedTableSql (tbl : String) (ts : TableSchema) : String :=
  "CREATE TABLE `" ++ tbl ++ "` " ++ squish ts.ddl

/-- The expected (normalized) `sqlite_master` text for an index. -/
def expectedIndexSql (idx tbl idxDdl : String) : String :=
  "CREATE INDEX `" ++ idx ++ "` ON `" ++ tbl ++ "` " ++ squish idxDdl

/-- `INSERT OR IGNORE` of the schema's seed rows (conflicts abstracted as
whole-row equality). -/
def seedInsert (rows seeds : List String) : List String :=
  rows ++ seeds.filter (fun s => s ∉ rows)

/-- `createDatabaseTables(schema, db, tbl)` on a freshly dropped table:
the new table stores the expected DDL, the seed rows, and no indices. -/
def createTableState (tbl : String) (ts : TableSchema) : TableState :=
  { createSql := expectedTableSql tbl ts, rows := seedInsert [] ts.seedData,
    indexSql := [] }

/-- One iteration of the `doIndecies` block of `auditDatabaseObjects`:
`view` is the `current[tblName]['index']` snapshot the audit consults;
the accumulator carries the live table the repairs act on and the `ok`
flag.  A present index with matching (normalized) text passes; a
mismatched or missing index is dropped and recreated when repairing,
and flags an error otherwise. -/
def auditIndexStep (repair : Bool) (tbl : String) (view : List (String × String))
    (acc : TableState × Bool) (idx : String × String) : TableState × Bool :=
  match view.find? (fun v => v.1 = idx.1) with
  | some v =>
    if squish v.2 = expectedIndexSql idx.1 tbl idx.2 then acc
    else if repair then
      ({ acc.1 with indexSql :=
          (acc.1.indexSql.filter (fun w => w.1 ≠ idx.1)) ++
            [(idx.1, expectedIndexSql idx.1 tbl idx.2)] }, acc.2)
    else (acc.1, false)
  | none =>
    if repair then
      ({ acc.1 with indexSql :=
          (acc.1.indexSql.filter (fun w => w.1 ≠ idx.1)) ++
            [(idx.1, expectedIndexSql idx.1 tbl idx.2)] }, acc.2)
    else (acc.1, false)

/-- The index sub-audit for one table (the `doIndecies` block of
`auditDatabaseObjects`), folded over the schema's indices.  After an
empty-table repair the code resets the `view` snapshot to `{}`. -/
def auditIndices (repair : Bool) (tbl : String) (ts : TableSchema)
    (view : List (String × String)) (t : TableState) (ok : Bool) :
    TableState × Bool :=
  ts.index.foldl (auditIndexStep repair tbl view) (t, ok)

/-- The audit of one table (one iteration of the `for tblName` loop of
`auditDatabaseObjects`, tables and indices both enabled): returns the
table's new state (`none` = still absent) and whether this table passed. -/
def auditTable (repair : Bool) (tbl : String) (ts : TableSchema) :
    Option TableState → Option TableState × Bool
  | some t =>
    if squish t.createSql = expectedTableSql tbl ts then
      -- schema matches: re-assert the seed rows, then audit the indices
      let t1 := { t with rows := seedInsert t.rows ts.seedData }
      let r := auditIndices repair tbl ts t1.indexSql t1 true
      (some r.1, r.2)
    else if repair ∧ t.rows = [] then
      -- empty mismatched table: drop and recreate, index view reset to {}
      let t1 := createTableState tbl ts
      let r := auditIndices repair tbl ts [] t1 true
      (some r.1, r.2)
    else
      -- non-empty mismatched table: flagged, never dropped; the index
      -- sub-audit still runs against the untouched table
      let r := auditIndices repair tbl ts t.indexSql t false
      (some r.1, r.2)
  | none =>
    if repair then
      -- createDatabaseTables(schema, db, tbl, doIndecies=True); the
      -- following index sub-audit's CREATE INDEX IF NOT EXISTS are no-ops
      let t1 := { createTableState tbl ts with
        indexSql := ts.index.map (fun idx => (idx.1, expectedIndexSql idx.1 tbl idx.2)) }
      (some t1, true)
    else (none, false)

/-- Look up a table of the database state. -/
def dbLookup (db : List (String × TableState)) (tbl : String) : Option TableState :=
  match db.find? (fun e => e.1 = tbl) with
  | some e => some e.2
  | none => none

/-- Store a table's new state back into the database state. -/
def dbStore (db : List (String × TableState)) (tbl : String) :
    Option TableState → List (String × TableState)
  | none => db
  | some t =>
    if (db.find? (fun e => e.1 = tbl)).isSome then
      db.map (fun e => if e.1 = tbl then (e.1, t) else e)
    else db ++ [(tbl, t)]

/-- Embedding of `Database.auditDatabaseObjects` over a whole schema:
audit each declared table in turn; the returned flag is the conjunction
of the per-table verdicts (`ok` starts `True` and is only ever set to
`False`). -/
def auditDatabaseObjects (repair : Bool) (schema : List (String × TableSchema))
    (db : List (String × TableState)) : List (String × TableState) × Bool :=
  schema.foldl
    (fun (acc : List (String × TableState) × Bool) e =>
      let r := auditTable repair e.1 e.2 (dbLookup acc.1 e.1)
      (dbStore acc.1 e.1 r.1, acc.2 && r.2))
    (db, true)

end LOKI

namespace LOKI

/-! ## Claim-side definitions for the liftOver region-mapping algorithm

`claimMapRegion` below is NOT translated from the source: it is written
from the words of the specification's region-mapping algorithm (§4.4
steps 2-5), with `clamp(x, lo, hi) = max(lo, min(x, hi))` and segment
`length = old_end − old_start + 1` as the specification defines them, so
that it can be compared against the source-derived
`liftOverRegionUsingChains`.  `amendedMapRegion` is the same text with
the clamp upper bounds corrected to `old_end − old_start` (= length − 1),
which is what the source computes. -/

/-- `clamp(x, lo, hi) = max(lo, min(x, hi))`. -/
def clamp (x lo hi : Int) : Int := max lo (min x hi)

/-- The specification's segment length `old_end − old_start + 1`. -/
def segLength (s : CandSeg) : Int := s.oldEnd - s.oldStart + 1

/-- Modelled from the claim's words: per-chain mapping with
`front_diff = clamp(start − first_seg.old_start, 0, first_seg.length)` and
`end_diff = clamp(end − end_seg.old_start, 0, end_seg.length)`, accepted
iff `(total − front_diff − end_seg.length + end_diff + 1) / (end − start + 1) ≥ 0.95`. -/
def claimMapRegion (start stop : Int) (firstSeg endSeg : CandSeg)
    (total : Int) : Option (Int × Int × Int) :=
  let fd := clamp (start - firstSeg.oldStart) 0 (segLength firstSeg)
  let ed := clamp (stop - endSeg.oldStart) 0 (segLength endSeg)
  let ns := if firstSeg.isFwd then firstSeg.newStart + fd else endSeg.newStart - ed
  let ne := if firstSeg.isFwd then endSeg.newStart + ed else firstSeg.newStart - fd
  if 20 * (total - fd - segLength endSeg + ed + 1) ≥ 19 * (stop - start + 1) then
    some (firstSeg.newChr, ns, ne)
  else none

/-- The amended claim's per-chain mapping: as `claimMapRegion` but with
the clamp upper bounds `length − 1 = old_end − old_start`. -/
def amendedMapRegion (start stop : Int) (firstSeg endSeg : CandSeg)
    (total : Int) : Option (Int × Int × Int) :=
  let fd := clamp (start - firstSeg.oldStart) 0 (segLength firstSeg - 1)
  let ed := clamp (stop - endSeg.oldStart) 0 (segLength endSeg - 1)
  let ns := if firstSeg.isFwd then firstSeg.newStart + fd else endSeg.newStart - ed
  let ne := if firstSeg.isFwd then endSeg.newStart + ed else firstSeg.newStart - fd
  if 20 * (total - fd - segLength endSeg + ed + 1) ≥ 19 * (stop - start + 1) then
    some (firstSeg.newChr, ns, ne)
  else none

/-- The maximal runs of consecutive equal `chainId` in the candidate
stream, each as `(first segment, rest of the run)`: the groups the
segment loop of `generateLiftOverRegions` accumulates, in the order
(score-descending) the generator produced them. -/
def chainGroups : List CandSeg → List (CandSeg × List CandSeg)
  | [] => []
  | s :: rest =>
    (s, rest.takeWhile (fun x => x.chainId = s.chainId)) ::
      chainGroups (rest.dropWhile (fun x => x.chainId = s.chainId))
termination_by l => l.length
decreasing_by
  simp only [List.length_cons]
  exact Nat.lt_succ_of_le (List.Sublist.length_le (List.dropWhile_sublist _))

/-- The last segment of a chain group. -/
def groupLast (g : CandSeg × List CandSeg) : CandSeg := g.2.getLastD g.1

/-- The accumulated `total_mapped_sz` of a chain group. -/
def groupTotal (g : CandSeg × List CandSeg) : Int :=
  segLength g.1 + (g.2.map segLength).sum

/-! ## Concrete liftOver inputs used by the scenario claims -/

/-- The concrete chain of spec scenario 3: `is_fwd = 1`,
`old_start = 1000`, `old_end = 2000`, `new_start = 5000`
(`new_chr = 7`, `chain_id = 42`, score irrelevant). -/
def scenarioChain : Chain :=
  { score := 0, oldStart := 1000, oldEnd := 2000, newStart := 5000,
    isFwd := true, newChr := 7, chainId := 42 }

/-- Its segments `[(1000, 1500, 5000), (1600, 2000, 5600)]`. -/
def scenarioSegs : List Segment :=
  [⟨1000, 1500, 5000⟩, ⟨1600, 2000, 5600⟩]

/-- The first scenario segment as a candidate tuple. -/
def scenarioSeg1 : CandSeg :=
  { chainId := 42, oldStart := 1000, oldEnd := 1500, newStart := 5000,
    isFwd := true, newChr := 7 }

/-- The second scenario segment as a candidate tuple. -/
def scenarioSeg2 : CandSeg :=
  { chainId := 42, oldStart := 1600, oldEnd := 2000, newStart := 5600,
    isFwd := true, newChr := 7 }

/-- A one-segment forward chain covering `[1, 19]`, mapped to new
position 100 on chromosome 9: an input on which the database and the
standalone liftOver implementations disagree. -/
def divergenceChain : Chain :=
  { score := 0, oldStart := 1, oldEnd := 19, newStart := 100,
    isFwd := true, newChr := 9, chainId := 1 }

/-- The single segment `(1, 19, 100)` of `divergenceChain`. -/
def divergenceSegs : List Segment := [⟨1, 19, 100⟩]

/-- A one-segment chain `(0, 99, 0)` (forward, new chromosome 7) on which
the claimed clamp bound and the code's clamp bound give different mapped
coordinates. -/
def clampSeg : CandSeg :=
  { chainId := 1, oldStart := 0, oldEnd := 99, newStart := 0,
    isFwd := true, newChr := 7 }

end LOKI

/-! # Theorems -/

namespace Biofilter

/-- Normalization only swaps the bounds, never the rowid or chromosome. -/
theorem normalizeRegion_fst (r : RegionRow) :
    (normalizeRegion r).1 = r.1 ∧ (normalizeRegion r).2.1 = r.2.1 := by
  unfold normalizeRegion
  split <;> simp

/-- After normalization the bounds are ordered. -/
theorem normalizeRegion_le (r : RegionRow) :
    (normalizeRegion r).2.2.1 ≤ (normalizeRegion r).2.2.2 := by
  rcases r with ⟨i, c, a, b⟩
  unfold normalizeRegion
  split <;> simp_all <;> omega

/-- Normalization is idempotent. -/
theorem normalizeRegion_idem (r : RegionRow) :
    normalizeRegion (normalizeRegion r) = normalizeRegion r := by
  rcases r with ⟨i, c, a, b⟩
  unfold normalizeRegion
  split <;> simp_all <;> omega

/-- The `INSERT OR IGNORE` deduplication preserves membership. -/
theorem mem_dedupZoneRows (z : ZoneRow) (zs : List ZoneRow) :
    z ∈ dedupZoneRows zs ↔ z ∈ zs := by
  suffices h : ∀ acc : List ZoneRow, z ∈ zs.foldl
      (fun acc w => if w ∈ acc then acc else acc ++ [w]) acc ↔ z ∈ acc ∨ z ∈ zs by
    simpa [dedupZoneRows] using h []
  induction zs with
  | nil => simp
  | cons a t ih =>
    intro acc
    rw [List.foldl_cons, ih]
    by_cases ha : a ∈ acc
    · simp only [if_pos ha, List.mem_cons]
      constructor
      · rintro (h | h)
        · exact Or.inl h
        · exact Or.inr (Or.inr h)
      · rintro (h | rfl | h)
        · exact Or.inl h
        · exact Or.inl ha
        · exact Or.inr h
    · simp only [if_neg ha, List.mem_append, List.mem_singleton, List.mem_cons]
      tauto

/-- Membership in the zone rows of one (normalized) region, as bounds on
the zone number. -/
theorem mem_regionZones (size : Nat) (r : RegionRow)
    (hr : r.2.2.1 ≤ r.2.2.2) (z : ZoneRow) :
    z ∈ regionZones size r ↔
      z.1 = r.1 ∧ z.2.1 = r.2.1 ∧
        r.2.2.1 / size ≤ z.2.2 ∧ z.2.2 ≤ r.2.2.2 / size := by
  have hd : r.2.2.1 / size ≤ r.2.2.2 / size := Nat.div_le_div_right hr
  obtain ⟨zid, zchm, zw⟩ := z
  simp only [regionZones, List.mem_map, List.mem_range]
  constructor
  · rintro ⟨i, hi, h⟩
    obtain ⟨rfl, rfl, rfl⟩ := Prod.mk.injEq .. ▸ h
    refine ⟨rfl, rfl, Nat.le_add_right _ _, ?_⟩
    omega
  · rintro ⟨rfl, rfl, h1, h2⟩
    exact ⟨zw - r.2.2.1 / size, by omega, by simp; omega⟩

/-- Membership in the rebuilt zone table. -/
theorem mem_updateRegionZones (size : Nat) (regions : List RegionRow) (z : ZoneRow) :
    z ∈ updateRegionZones size regions ↔
      ∃ r ∈ regions, z ∈ regionZones size (normalizeRegion r) := by
  rw [updateRegionZones, mem_dedupZoneRows, List.mem_flatMap]
  constructor
  · rintro ⟨r', hr', hz⟩
    obtain ⟨r, hr, rfl⟩ := List.mem_map.mp hr'
    exact ⟨r, hr, hz⟩
  · rintro ⟨r, hr, hz⟩
    exact ⟨normalizeRegion r, List.mem_map.mpr ⟨r, hr, rfl⟩, hz⟩

/-- C4: after `updateRegionZones` with zone size `Z`, every region row is
normalized to `posMin ≤ posMax`, every zone `z ∈ ⌊posMin/Z⌋..⌊posMax/Z⌋`
of every region row appears in `region_zone` under the region's rowid and
chromosome, every `region_zone` row corresponds to a live region row with
the zone in that range, and rebuilding from the (already normalized)
regions reproduces the same mapping. -/
theorem c4_updateRegionZones (size : Nat) (regions : List RegionRow) :
    (∀ r ∈ regions, ∀ w : Nat,
        (normalizeRegion r).2.2.1 / size ≤ w →
        w ≤ (normalizeRegion r).2.2.2 / size →
        (r.1, r.2.1, w) ∈ updateRegionZones size regions) ∧
    (∀ z ∈ updateRegionZones size regions, ∃ r ∈ regions,
        z.1 = r.1 ∧ z.2.1 = r.2.1 ∧
        (normalizeRegion r).2.2.1 / size ≤ z.2.2 ∧
        z.2.2 ≤ (normalizeRegion r).2.2.2 / size) ∧
    updateRegionZones size (regions.map normalizeRegion) =
      updateRegionZones size regions := by
  refine ⟨?_, ?_, ?_⟩
  · intro r hr w h1 h2
    refine (mem_updateRegionZones size regions _).mpr ⟨r, hr, ?_⟩
    rw [mem_regionZones size _ (normalizeRegion_le r)]
    obtain ⟨e1, e2⟩ := normalizeRegion_fst r
    exact ⟨e1.symm, e2.symm, h1, h2⟩
  · intro z hz
    obtain ⟨r, hr, hmem⟩ := (mem_updateRegionZones size regions z).mp hz
    rw [mem_regionZones size _ (normalizeRegion_le r)] at hmem
    obtain ⟨e1, e2⟩ := normalizeRegion_fst r
    exact ⟨r, hr, by rw [hmem.1, e1], by rw [hmem.2.1, e2], hmem.2.2.1, hmem.2.2.2⟩
  · unfold updateRegionZones
    rw [List.map_map,
      List.map_congr_left (fun r _ => by
        rw [Function.comp_apply, normalizeRegion_idem])]

/-- Witness for C4 at the spec's concrete scenario 2: `Z = 100000`, one
region `(rowid = 1, chr = 1, posMin = 99950, posMax = 100050)` produces
exactly the zone rows `(1, 1, 0)` and `(1, 1, 1)`. -/
theorem c4_updateRegionZones_witness :
    (1, 1, 0) ∈ updateRegionZones 100000 [(1, 1, 99950, 100050)] ∧
    (1, 1, 1) ∈ updateRegionZones 100000 [(1, 1, 99950, 100050)] ∧
    updateRegionZones 100000 [(1, 1, 99950, 100050)] = [(1, 1, 0), (1, 1, 1)] := by
  refine ⟨?_, ?_, by decide⟩
  · exact (c4_updateRegionZones 100000 [(1, 1, 99950, 100050)]).1
      (1, 1, 99950, 100050) (by decide) 0 (by decide) (by decide)
  · exact (c4_updateRegionZones 100000 [(1, 1, 99950, 100050)]).1
      (1, 1, 99950, 100050) (by decide) 1 (by decide) (by decide)

end Biofilter

namespace LOKI

/-- Folding the tally counter over a list counts the matching rows. -/
theorem foldl_tally_eq_countP (p : Nat × String × Nat → Prop) [DecidablePred p]
    (l : List (Nat × String × Nat)) (n0 : Nat) :
    l.foldl (fun n r => if p r then n + 1 else n) n0 = n0 + l.countP (fun r => decide (p r)) := by
  induction l generalizing n0 with
  | nil => simp
  | cons a t ih =>
    rw [List.foldl_cons, ih, List.countP_cons]
    split <;> simp_all <;> omega

/-- C3 (amended): `generateCurrentRSesByRSes` performs exactly ONE
indirection step through `snp_merge` — not a transitive fixed-point
resolution.  An input rs matched by no `snp_merge` row yields itself; an
input rs matched by a merge row yields that row's `rsCurrent` (one row
per match); every yielded row is either a one-step merge or the
unmerged identity; and the `merge` tally counts exactly the yielded rows
whose `rsCurrent` differs from the input rs. -/
theorem c3_generateCurrentRSes_oneStep (merge : List MergeRow)
    (rses : List (Nat × String)) :
    (∀ rs extra, (rs, extra) ∈ rses → (∀ m ∈ merge, m.1 ≠ rs) →
      (rs, extra, rs) ∈ generateCurrentRSesByRSes merge rses) ∧
    (∀ rs extra c, (rs, extra) ∈ rses → (rs, c) ∈ merge →
      (rs, extra, c) ∈ generateCurrentRSesByRSes merge rses) ∧
    (∀ row ∈ generateCurrentRSesByRSes merge rses,
      (row.1, row.2.2) ∈ merge ∨ (row.2.2 = row.1 ∧ ∀ m ∈ merge, m.1 ≠ row.1)) ∧
    currentRSesMergeTally merge rses =
      (generateCurrentRSesByRSes merge rses).countP (fun r => r.2.2 ≠ r.1) := by
  refine ⟨?_, ?_, ?_, ?_⟩
  · intro rs extra hin hnone
    rw [generateCurrentRSesByRSes, List.mem_flatMap]
    refine ⟨(rs, extra), hin, ?_⟩
    have hfil : merge.filter (fun m => decide (m.1 = rs)) = [] := by
      rw [List.filter_eq_nil_iff]
      intro m hm
      simpa using hnone m hm
    simp [hfil]
  · intro rs extra c hin hm
    rw [generateCurrentRSesByRSes, List.mem_flatMap]
    refine ⟨(rs, extra), hin, ?_⟩
    have hmem : (rs, c) ∈ merge.filter (fun m => decide (m.1 = rs)) :=
      List.mem_filter.mpr ⟨hm, by simp⟩
    have hne : (merge.filter (fun m => decide (m.1 = rs))).isEmpty = false := by
      rcases h : merge.filter (fun m => decide (m.1 = rs)) with _ | ⟨a, t⟩
      · rw [h] at hmem; simp at hmem
      · rw [h]; rfl
    simp only [hne, Bool.false_eq_true, if_false, List.mem_map]
    exact ⟨(rs, c), hmem, rfl⟩
  · intro row hrow
    rw [generateCurrentRSesByRSes, List.mem_flatMap] at hrow
    obtain ⟨i, hi, hrow⟩ := hrow
    by_cases hfe : (merge.filter (fun m => decide (m.1 = i.1))).isEmpty
    · simp only [hfe, if_true, List.mem_singleton] at hrow
      subst hrow
      refine Or.inr ⟨rfl, ?_⟩
      intro m hm heq
      rw [List.isEmpty_iff, List.filter_eq_nil_iff] at hfe
      exact hfe m hm (by simpa using heq)
    · simp only [hfe, Bool.false_eq_true, if_false, List.mem_map] at hrow
      obtain ⟨m, hm, rfl⟩ := hrow
      obtain ⟨hmm, hmr⟩ := List.mem_filter.mp hm
      left
      have hm1 : m.1 = i.1 := by simpa using hmr
      rw [← hm1, Prod.mk.eta]
      exact hmm
  · rw [currentRSesMergeTally, foldl_tally_eq_countP, Nat.zero_add]

/-- Counterexample to C3 as stated: with
`snp_merge = {(100, 200), (200, 300)}` the input `(100, "x")` yields
`(100, "x", 200)`, but 200 is NOT a fixed point of following
`rsMerged → rsCurrent` (200 resolves to 300), so the function does not
yield "the unique fixed-point of following rsMerged→rsCurrent". -/
theorem c3_counterexample :
    generateCurrentRSesByRSes [(100, 200), (200, 300)] [(100, "x")] =
      [(100, "x", 200)] ∧
    resolveMergeStep [(100, 200), (200, 300)] 200 = 300 ∧
    (300 : Nat) ≠ 200 := by
  refine ⟨by decide, by decide, by decide⟩

/-- Witness for C3 (amended) at the concrete scenario: merge table
`{(100, 200), (200, 300)}`, inputs `(100, "x")` (merged one step) and
`(50, "y")` (unmerged), with the tally counting the single changed row. -/
theorem c3_generateCurrentRSes_oneStep_witness :
    (100, "x", 200) ∈
      generateCurrentRSesByRSes [(100, 200), (200, 300)] [(100, "x"), (50, "y")] ∧
    (50, "y", 50) ∈
      generateCurrentRSesByRSes [(100, 200), (200, 300)] [(100, "x"), (50, "y")] ∧
    currentRSesMergeTally [(100, 200), (200, 300)] [(100, "x"), (50, "y")] = 1 := by
  refine ⟨?_, ?_, ?_⟩
  · exact (c3_generateCurrentRSes_oneStep [(100, 200), (200, 300)]
      [(100, "x"), (50, "y")]).2.1 100 "x" 200 (by decide) (by decide)
  · exact (c3_generateCurrentRSes_oneStep [(100, 200), (200, 300)]
      [(100, "x"), (50, "y")]).1 50 "y" (by decide) (by decide)
  · rw [(c3_generateCurrentRSes_oneStep [(100, 200), (200, 300)]
      [(100, "x"), (50, "y")]).2.2.2]
    decide

end LOKI

namespace Biofilter

/-- After the flag-set pass, a row's flag is its previous flag OR-ed with
"some resolved input rs matches this row". -/
theorem setSnpFlags_eq (cs : List Nat) (rows : List (SnpRow × Bool)) :
    setSnpFlags cs rows =
      rows.map (fun p => (p.1, p.2 || decide (p.1.rs ∈ cs))) := by
  induction cs generalizing rows with
  | nil => simp [setSnpFlags]
  | cons c cs ih =>
    rw [setSnpFlags, List.foldl_cons]
    have h2 := ih (rows.map (fun p => if p.1.rs = c then (p.1, true) else p))
    rw [setSnpFlags] at h2
    rw [h2, List.map_map]
    apply List.map_congr_left
    intro p _
    by_cases h : p.1.rs = c <;> simp [h]

/-- The whole flag lifecycle (clear, set on match, delete unset) keeps
exactly the rows whose rs is among the resolved inputs. -/
theorem flag_cycle_eq_filter (cs : List Nat) (rows : List SnpRow) :
    ((setSnpFlags cs (rows.map (fun r => (r, false)))).filter
        (fun p => p.2)).map (fun p => p.1) =
      rows.filter (fun r => r.rs ∈ cs) := by
  rw [setSnpFlags_eq, List.map_map]
  induction rows with
  | nil => rfl
  | cons r t ih =>
    simp only [List.map_cons, Function.comp_apply, Bool.false_or, List.filter_cons]
    by_cases h : r.rs ∈ cs
    · simpa [h] using ih
    · simpa [h] using ih

/-- C5: `intersectInputSNPs` behaves as `unionInputSNPs` when the SNP
filter counter is zero; otherwise the clear/set/delete flag cycle keeps
exactly the rows whose rs matches some (merge-resolved) input rs, and the
`inputFilters[db]['snp']` counter is incremented by one in either case. -/
theorem c5_intersectInputSNPs (merge : List LOKI.MergeRow) (st : SnpFilter)
    (snps : List (Nat × String)) :
    (st.counter = 0 →
      intersectInputSNPs merge st snps = unionInputSNPs merge st snps) ∧
    (st.counter ≠ 0 →
      (intersectInputSNPs merge st snps).rows =
        st.rows.filter (fun r =>
          r.rs ∈ (LOKI.generateCurrentRSesByRSes merge snps).map
            (fun x => x.2.2))) ∧
    (intersectInputSNPs merge st snps).counter = st.counter + 1 := by
  refine ⟨?_, ?_, ?_⟩
  · intro h
    rw [intersectInputSNPs, if_pos h]
  · intro h
    rw [intersectInputSNPs, if_neg h]
    exact flag_cycle_eq_filter _ _
  · by_cases h : st.counter = 0
    · rw [intersectInputSNPs, if_pos h, unionInputSNPs, h]
    · rw [intersectInputSNPs, if_neg h]

/-- Witness for C5 at the spec's concrete scenario 4: with an empty merge
table, a union of rs {1, 2, 3} into an empty filter yields three rows and
counter 1; intersecting with rs {2, 4} leaves exactly the rs-2 row and
counter 2. -/
theorem c5_intersectInputSNPs_witness :
    (unionInputSNPs [] ⟨[], 0⟩ [(1, "a"), (2, "b"), (3, "c")]).rows.length = 3 ∧
    (intersectInputSNPs []
        (unionInputSNPs [] ⟨[], 0⟩ [(1, "a"), (2, "b"), (3, "c")])
        [(2, ""), (4, "")]).rows = [⟨"rs2", "b", 2⟩] ∧
    (intersectInputSNPs []
        (unionInputSNPs [] ⟨[], 0⟩ [(1, "a"), (2, "b"), (3, "c")])
        [(2, ""), (4, "")]).counter = 2 := by
  have h := c5_intersectInputSNPs []
    (unionInputSNPs [] ⟨[], 0⟩ [(1, "a"), (2, "b"), (3, "c")]) [(2, ""), (4, "")]
  refine ⟨by decide, ?_, ?_⟩
  · rw [h.2.1 (by decide)]
    decide
  · rw [h.2.2]
    decide

end Biofilter


namespace Biofilter

/-- Attaching a condition to alias `a`'s ON set commutes with looking up
alias `a` in the LEFT JOIN association list. -/
theorem find?_addToON_eq (a c : String) (l : List (String × List String)) :
    (l.map (fun p => if p.1 = a then (p.1, addCond p.2 c) else p)).find?
        (fun p => p.1 = a) =
      (l.find? (fun p => p.1 = a)).map (fun p => (p.1, addCond p.2 c)) := by
  induction l with
  | nil => rfl
  | cons p t ih =>
    by_cases h : p.1 = a
    · rw [List.map_cons, if_pos h, List.find?_cons_of_pos _ (by simp [h]),
        List.find?_cons_of_pos _ (by simp [h]), Option.map_some']
    · rw [List.map_cons, if_neg h, List.find?_cons_of_neg _ (by simp [h]),
        List.find?_cons_of_neg _ (by simp [h]), ih]

/-- Attaching a condition to alias `a`'s ON set leaves the lookup of any
other alias unchanged. -/
theorem find?_addToON_ne (a b c : String) (hba : b ≠ a)
    (l : List (String × List String)) :
    (l.map (fun p => if p.1 = a then (p.1, addCond p.2 c) else p)).find?
        (fun p => p.1 = b) =
      l.find? (fun p => p.1 = b) := by
  induction l with
  | nil => rfl
  | cons p t ih =>
    by_cases ha : p.1 = a
    · have hb : ¬(p.1 = b) := by rw [ha]; exact fun h => hba h.symm
      rw [List.map_cons, if_pos ha,
        List.find?_cons_of_neg _ (by simp [ha]; exact fun h => hba h.symm),
        List.find?_cons_of_neg _ (by simp [hb]), ih]
    · rw [List.map_cons, if_neg ha]
      by_cases hb : p.1 = b
      · rw [List.find?_cons_of_pos _ (by simp [hb]),
          List.find?_cons_of_pos _ (by simp [hb])]
      · rw [List.find?_cons_of_neg _ (by simp [hb]),
          List.find?_cons_of_neg _ (by simp [hb]), ih]

/-- `addToON` updates exactly the targeted alias's ON set. -/
theorem onConds_addToON_self (q : SqlQuery) (a c : String) (ha : a ∈ q.ljKeys) :
    (q.addToON a c).onConds a = addCond (q.onConds a) c := by
  have hs : (q.leftJoin.find? (fun p => p.1 = a)).isSome := by
    rw [List.find?_isSome]
    obtain ⟨e, he, hea⟩ := List.mem_map.mp ha
    exact ⟨e, he, by simp [hea]⟩
  obtain ⟨p, hp⟩ := Option.isSome_iff_exists.mp hs
  unfold SqlQuery.onConds SqlQuery.addToON
  dsimp only
  rw [find?_addToON_eq, hp]
  rfl

/-- `addToON` leaves every other alias's ON set unchanged. -/
theorem onConds_addToON_ne (q : SqlQuery) (a b c : String) (hba : b ≠ a) :
    (q.addToON a c).onConds b = q.onConds b := by
  unfold SqlQuery.onConds SqlQuery.addToON
  dsimp only
  rw [find?_addToON_ne a b c hba]

/-- C6: constraint placement in `buildQuery`.  For an alias-pair
constraint: both aliases in FROM puts the condition in WHERE; one alias
in FROM and the other a LEFT JOIN alias puts it in that LEFT JOIN
alias's ON clause; both LEFT JOIN aliases puts it in the ON clause of
whichever alias was added later to the (insertion-ordered) LEFT JOIN
dict, i.e. the one with the larger index.  A per-alias constraint goes
to WHERE when the alias is in FROM and to its own ON clause when it is a
LEFT JOIN alias.  In each case nothing else changes. -/
theorem c6_constraintPlacement (q : SqlQuery) (aL aR c : String) (hne : aL ≠ aR) :
    ((aL ∈ q.fromSet ∧ aR ∈ q.fromSet) →
      (addPairConstraint q aL aR c).whereSet = addCond q.whereSet c ∧
      (addPairConstraint q aL aR c).leftJoin = q.leftJoin) ∧
    ((aL ∈ q.fromSet ∧ aR ∉ q.fromSet ∧ aR ∈ q.ljKeys) →
      (addPairConstraint q aL aR c).onConds aR = addCond (q.onConds aR) c ∧
      (addPairConstraint q aL aR c).whereSet = q.whereSet ∧
      ∀ b, b ≠ aR → (addPairConstraint q aL aR c).onConds b = q.onConds b) ∧
    ((aL ∉ q.fromSet ∧ aL ∈ q.ljKeys ∧ aR ∈ q.fromSet) →
      (addPairConstraint q aL aR c).onConds aL = addCond (q.onConds aL) c ∧
      (addPairConstraint q aL aR c).whereSet = q.whereSet ∧
      ∀ b, b ≠ aL → (addPairConstraint q aL aR c).onConds b = q.onConds b) ∧
    ((aL ∉ q.fromSet ∧ aR ∉ q.fromSet ∧ aL ∈ q.ljKeys ∧ aR ∈ q.ljKeys) →
      (addPairConstraint q aL aR c).onConds
          (if q.ljIndex aR < q.ljIndex aL then aL else aR) =
        addCond (q.onConds (if q.ljIndex aR < q.ljIndex aL then aL else aR)) c ∧
      (addPairConstraint q aL aR c).whereSet = q.whereSet ∧
      ∀ b, b ≠ (if q.ljIndex aR < q.ljIndex aL then aL else aR) →
        (addPairConstraint q aL aR c).onConds b = q.onConds b) ∧
    (∀ a, a ∈ q.fromSet → a ∉ q.ljKeys →
      (addAliasConstraint q a c).whereSet = addCond q.whereSet c ∧
      (addAliasConstraint q a c).leftJoin = q.leftJoin) ∧
    (∀ a, a ∉ q.fromSet → a ∈ q.ljKeys →
      (addAliasConstraint q a c).onConds a = addCond (q.onConds a) c ∧
      (addAliasConstraint q a c).whereSet = q.whereSet ∧
      ∀ b, b ≠ a → (addAliasConstraint q a c).onConds b = q.onConds b) := by
  refine ⟨?_, ?_, ?_, ?_, ?_, ?_⟩
  · rintro ⟨h1, h2⟩
    rw [addPairConstraint, if_neg hne, if_pos ⟨h1, h2⟩]
    exact ⟨rfl, rfl⟩
  · rintro ⟨h1, h2, h3⟩
    rw [addPairConstraint, if_neg hne, if_neg (fun h => h2 h.2), if_pos ⟨h1, h3⟩]
    exact ⟨onConds_addToON_self q aR c h3, rfl,
      fun b hb => onConds_addToON_ne q aR b c hb⟩
  · rintro ⟨h1, h2, h3⟩
    rw [addPairConstraint, if_neg hne, if_neg (fun h => h1 h.1),
      if_neg (fun h => h1 h.1), if_pos ⟨h2, h3⟩]
    exact ⟨onConds_addToON_self q aL c h2, rfl,
      fun b hb => onConds_addToON_ne q aL b c hb⟩
  · rintro ⟨h1, h2, h3, h4⟩
    rw [addPairConstraint, if_neg hne, if_neg (fun h => h1 h.1),
      if_neg (fun h => h1 h.1), if_neg (fun h => h2 h.2), if_pos ⟨h3, h4⟩]
    rcases Nat.lt_or_ge (q.ljIndex aR) (q.ljIndex aL) with h | h
    · simp only [if_pos h]
      exact ⟨onConds_addToON_self q aL c h3, rfl,
        fun b hb => onConds_addToON_ne q aL b c hb⟩
    · simp only [if_neg (Nat.not_lt.mpr h)]
      exact ⟨onConds_addToON_self q aR c h4, rfl,
        fun b hb => onConds_addToON_ne q aR b c hb⟩
  · intro a h1 h2
    simp only [addAliasConstraint]
    simp only [if_pos h1]
    rw [if_neg (show a ∉ (q.addToWhere c).ljKeys from h2)]
    exact ⟨rfl, rfl⟩
  · intro a h1 h2
    simp only [addAliasConstraint]
    simp only [if_neg h1]
    rw [if_pos h2]
    exact ⟨onConds_addToON_self q a c h2, rfl,
      fun b hb => onConds_addToON_ne q a b c hb⟩

/-- Witness for C6 on a concrete query with FROM aliases `a`, `b` and
LEFT JOIN aliases `x` (added first), `y` (added later): a pair constraint
over (a, b) lands in WHERE, over (a, x) in x's ON clause, and over
(x, y) — both LEFT JOIN — in y's ON clause because y was added later. -/
theorem c6_constraintPlacement_witness :
    (addPairConstraint ⟨["a", "b"], [("x", []), ("y", [])], []⟩ "a" "b" "c1").whereSet
      = ["c1"] ∧
    (addPairConstraint ⟨["a", "b"], [("x", []), ("y", [])], []⟩ "a" "x" "c2").onConds "x"
      = ["c2"] ∧
    (addPairConstraint ⟨["a", "b"], [("x", []), ("y", [])], []⟩ "x" "y" "c3").onConds "y"
      = ["c3"] := by
  refine ⟨?_, ?_, ?_⟩
  · rw [((c6_constraintPlacement ⟨["a", "b"], [("x", []), ("y", [])], []⟩
      "a" "b" "c1" (by decide)).1 (by constructor <;> decide)).1]
    decide
  · rw [((c6_constraintPlacement ⟨["a", "b"], [("x", []), ("y", [])], []⟩
      "a" "x" "c2" (by decide)).2.1 (by refine ⟨by decide, by decide, by decide⟩)).1]
    decide
  · have h := (c6_constraintPlacement ⟨["a", "b"], [("x", []), ("y", [])], []⟩
      "x" "y" "c3" (by decide)).2.2.2.1
      (by refine ⟨by decide, by decide, by decide, by decide⟩)
    have hif : (if (⟨["a", "b"], [("x", []), ("y", [])], []⟩ : SqlQuery).ljIndex "y" <
        (⟨["a", "b"], [("x", []), ("y", [])], []⟩ : SqlQuery).ljIndex "x"
        then "x" else "y") = "y" := by decide
    rw [hif] at h
    rw [h.1]
    decide

end Biofilter

namespace LOKI

/-- `auditIndices` is the fold of its step function (definitional). -/
theorem auditIndices_eq_foldl (repair : Bool) (tbl : String) (ts : TableSchema)
    (view : List (String × String)) (t : TableState) (ok : Bool) :
    auditIndices repair tbl ts view t ok =
      ts.index.foldl (auditIndexStep repair tbl view) (t, ok) := rfl

/-- One index-audit step never touches the table's rows or its stored
CREATE TABLE text. -/
theorem auditIndexStep_frame (repair : Bool) (tbl : String)
    (view : List (String × String)) (acc : TableState × Bool)
    (idx : String × String) :
    (auditIndexStep repair tbl view acc idx).1.rows = acc.1.rows ∧
    (auditIndexStep repair tbl view acc idx).1.createSql = acc.1.createSql := by
  unfold auditIndexStep
  cases hfind : view.find? (fun v => v.1 = idx.1) <;> dsimp only <;>
    split_ifs <;> exact ⟨rfl, rfl⟩

/-- With repair enabled an index-audit step never changes the `ok` flag. -/
theorem auditIndexStep_ok (tbl : String) (view : List (String × String))
    (acc : TableState × Bool) (idx : String × String) :
    (auditIndexStep true tbl view acc idx).2 = acc.2 := by
  unfold auditIndexStep
  cases hfind : view.find? (fun v => v.1 = idx.1) <;> dsimp only <;>
    split_ifs <;> simp_all

/-- The whole index sub-audit never touches the table's rows or its
stored CREATE TABLE text. -/
theorem auditIndices_frame (repair : Bool) (tbl : String) (ts : TableSchema)
    (view : List (String × String)) (t : TableState) (ok : Bool) :
    (auditIndices repair tbl ts view t ok).1.rows = t.rows ∧
    (auditIndices repair tbl ts view t ok).1.createSql = t.createSql := by
  rw [auditIndices_eq_foldl]
  induction ts.index generalizing t ok with
  | nil => exact ⟨rfl, rfl⟩
  | cons idx rest ih =>
    rw [List.foldl_cons]
    obtain ⟨h1, h2⟩ := auditIndexStep_frame repair tbl view (t, ok) idx
    rcases hstep : auditIndexStep repair tbl view (t, ok) idx with ⟨t1, ok1⟩
    rw [hstep] at h1 h2
    obtain ⟨g1, g2⟩ := ih t1 ok1
    exact ⟨g1.trans h1, g2.trans h2⟩

/-- With repair enabled the index sub-audit leaves the `ok` flag as it
found it. -/
theorem auditIndices_ok_of_repair (tbl : String) (ts : TableSchema)
    (view : List (String × String)) (t : TableState) (ok : Bool) :
    (auditIndices true tbl ts view t ok).2 = ok := by
  rw [auditIndices_eq_foldl]
  induction ts.index generalizing t ok with
  | nil => rfl
  | cons idx rest ih =>
    rw [List.foldl_cons]
    have hok := auditIndexStep_ok tbl view (t, ok) idx
    rcases hstep : auditIndexStep true tbl view (t, ok) idx with ⟨t1, ok1⟩
    rw [hstep] at hok
    dsimp at hok
    rw [← hok]
    exact ih t1 ok1

/-- An index entry named differently from the step's index survives the
step. -/
theorem mem_indexSql_of_step (repair : Bool) (tbl iname : String)
    (view : List (String × String)) (acc : TableState × Bool)
    (idx : String × String) (x : String)
    (hmem : (iname, x) ∈ acc.1.indexSql) (hne : idx.1 ≠ iname) :
    (iname, x) ∈ (auditIndexStep repair tbl view acc idx).1.indexSql := by
  unfold auditIndexStep
  cases hfind : view.find? (fun v => v.1 = idx.1) <;> dsimp only <;>
    split_ifs <;> (try exact hmem) <;>
    exact List.mem_append_left _
      (List.mem_filter.mpr ⟨hmem, by simpa using (Ne.symm hne)⟩)

/-- An index entry survives the audit of a list of differently-named
indices. -/
theorem mem_indexSql_of_fold (repair : Bool) (tbl iname : String)
    (view : List (String × String)) (x : String)
    (l : List (String × String)) (acc : TableState × Bool)
    (hmem : (iname, x) ∈ acc.1.indexSql) (hl : ∀ e ∈ l, e.1 ≠ iname) :
    (iname, x) ∈ (l.foldl (auditIndexStep repair tbl view) acc).1.indexSql := by
  induction l generalizing acc with
  | nil => exact hmem
  | cons idx rest ih =>
    rw [List.foldl_cons]
    exact ih _ (mem_indexSql_of_step repair tbl iname view acc idx x hmem
      (hl idx (List.mem_cons_self _ _))) (fun e he => hl e (List.mem_cons_of_mem _ he))

/-- With repair enabled, a schema index missing from the audit's view is
created by the index sub-audit fold. -/
theorem fold_indexAudit_creates (tbl : String)
    (view : List (String × String)) (iname idef : String)
    (l : List (String × String)) (hidx : (iname, idef) ∈ l)
    (hnodup : (l.map Prod.fst).Nodup)
    (hview : view.find? (fun v => v.1 = iname) = none) :
    ∀ acc : TableState × Bool,
      (iname, expectedIndexSql iname tbl idef) ∈
        (l.foldl (auditIndexStep true tbl view) acc).1.indexSql := by
  induction l with
  | nil => simp at hidx
  | cons idx rest ih =>
    intro acc
    rw [List.foldl_cons]
    rcases List.mem_cons.mp hidx with heq | hmem
    · subst heq
      have hstep : (iname, expectedIndexSql iname tbl idef) ∈
          (auditIndexStep true tbl view acc (iname, idef)).1.indexSql := by
        unfold auditIndexStep
        rw [hview]
        dsimp only
        rw [if_pos rfl]
        exact List.mem_append_right _ (List.mem_singleton.mpr rfl)
      have hn := hnodup
      simp only [List.map_cons, List.nodup_cons] at hn
      have hrest : ∀ e ∈ rest, e.1 ≠ iname := by
        intro e he
        exact fun h => hn.1 (h ▸ List.mem_map_of_mem Prod.fst he)
      exact mem_indexSql_of_fold true tbl iname view _ rest _ hstep hrest
    · have hn := hnodup
      simp only [List.map_cons, List.nodup_cons] at hn
      exact ih hmem hn.2 _

/-- With repair enabled, a schema index missing from the audit's view is
created by the index sub-audit. -/
theorem auditIndices_creates (tbl : String) (ts : TableSchema)
    (view : List (String × String)) (t : TableState) (ok : Bool)
    (iname idef : String) (hidx : (iname, idef) ∈ ts.index)
    (hnodup : (ts.index.map Prod.fst).Nodup)
    (hview : view.find? (fun v => v.1 = iname) = none) :
    (iname, expectedIndexSql iname tbl idef) ∈
      (auditIndices true tbl ts view t ok).1.indexSql := by
  rw [auditIndices_eq_foldl]
  exact fold_indexAudit_creates tbl view iname idef ts.index hidx hnodup hview (t, ok)

/-- Auditing a non-empty table with mismatched schema never drops it or
touches its rows or its stored definition, and fails this table. -/
theorem auditTable_mismatch_nonempty (tbl : String) (ts : TableSchema)
    (cur : TableState) (hm : squish cur.createSql ≠ expectedTableSql tbl ts)
    (hr : cur.rows ≠ []) :
    (auditTable true tbl ts (some cur)).2 = false ∧
    ∃ t', (auditTable true tbl ts (some cur)).1 = some t' ∧
      t'.rows = cur.rows ∧ t'.createSql = cur.createSql := by
  have hbr : auditTable true tbl ts (some cur) =
      (some (auditIndices true tbl ts cur.indexSql cur false).1,
        (auditIndices true tbl ts cur.indexSql cur false).2) := by
    simp only [auditTable]
    rw [if_neg hm, if_neg (fun h => hr h.2)]
  rw [hbr]
  refine ⟨auditIndices_ok_of_repair tbl ts cur.indexSql cur false, _, rfl, ?_, ?_⟩
  · exact (auditIndices_frame true tbl ts cur.indexSql cur false).1
  · exact (auditIndices_frame true tbl ts cur.indexSql cur false).2

/-- Auditing an EMPTY table with mismatched schema drops and recreates
it (with the schema's definition and seed rows) and passes. -/
theorem auditTable_mismatch_empty (tbl : String) (ts : TableSchema)
    (cur : TableState) (hm : squish cur.createSql ≠ expectedTableSql tbl ts)
    (hr : cur.rows = []) :
    (auditTable true tbl ts (some cur)).2 = true ∧
    ∃ t', (auditTable true tbl ts (some cur)).1 = some t' ∧
      t'.createSql = expectedTableSql tbl ts ∧
      t'.rows = seedInsert [] ts.seedData := by
  have hbr : auditTable true tbl ts (some cur) =
      (some (auditIndices true tbl ts [] (createTableState tbl ts) true).1,
        (auditIndices true tbl ts [] (createTableState tbl ts) true).2) := by
    simp only [auditTable]
    rw [if_neg hm, if_pos ⟨by trivial, hr⟩]
  rw [hbr]
  refine ⟨auditIndices_ok_of_repair tbl ts [] (createTableState tbl ts) true,
    _, rfl, ?_, ?_⟩
  · exact (auditIndices_frame true tbl ts [] (createTableState tbl ts) true).2
  · exact (auditIndices_frame true tbl ts [] (createTableState tbl ts) true).1

/-- Auditing a table whose schema matches re-asserts the seed rows and,
with repair enabled, creates any missing schema index without touching
the rows beyond that seed insertion. -/
theorem auditTable_match (tbl : String) (ts : TableSchema) (cur : TableState)
    (hm : squish cur.createSql = expectedTableSql tbl ts) :
    (auditTable true tbl ts (some cur)).2 = true ∧
    ∃ t', (auditTable true tbl ts (some cur)).1 = some t' ∧
      t'.rows = seedInsert cur.rows ts.seedData ∧
      t'.createSql = cur.createSql ∧
      (∀ iname idef, (iname, idef) ∈ ts.index →
        (ts.index.map Prod.fst).Nodup →
        cur.indexSql.find? (fun v => v.1 = iname) = none →
        (iname, expectedIndexSql iname tbl idef) ∈ t'.indexSql) := by
  have hbr : auditTable true tbl ts (some cur) =
      (some (auditIndices true tbl ts
          ({ cur with rows := seedInsert cur.rows ts.seedData }).indexSql
          { cur with rows := seedInsert cur.rows ts.seedData } true).1,
        (auditIndices true tbl ts
          ({ cur with rows := seedInsert cur.rows ts.seedData }).indexSql
          { cur with rows := seedInsert cur.rows ts.seedData } true).2) := by
    simp only [auditTable]
    rw [if_pos hm]
  rw [hbr]
  refine ⟨auditIndices_ok_of_repair tbl ts _ _ true, _, rfl, ?_, ?_, ?_⟩
  · exact (auditIndices_frame true tbl ts _ _ true).1
  · exact (auditIndices_frame true tbl ts _ _ true).2
  · intro iname idef hidx hnodup hmiss
    exact auditIndices_creates tbl ts _ _ true iname idef hidx hnodup hmiss

/-- Once the audit's `ok` flag is false it stays false for the rest of
the schema fold. -/
theorem auditFold_false_stays (repair : Bool)
    (schema : List (String × TableSchema)) (db : List (String × TableState)) :
    (schema.foldl
      (fun acc e =>
        let r := auditTable repair e.1 e.2 (dbLookup acc.1 e.1)
        (dbStore acc.1 e.1 r.1, acc.2 && r.2))
      (db, false)).2 = false := by
  induction schema generalizing db with
  | nil => rfl
  | cons e rest ih =>
    rw [List.foldl_cons]
    exact ih _

/-- Storing one table's result does not change the lookup of another. -/
theorem find?_dbstore_ne (other tbl : String) (hne : tbl ≠ other)
    (t : TableState) (l : List (String × TableState)) :
    (l.map (fun e => if e.1 = other then (e.1, t) else e)).find?
        (fun e => e.1 = tbl) =
      l.find? (fun e => e.1 = tbl) := by
  induction l with
  | nil => rfl
  | cons e rest ih =>
    by_cases ho : e.1 = other
    · have ht : ¬(e.1 = tbl) := by rw [ho]; exact fun h => hne h.symm
      rw [List.map_cons, if_pos ho,
        List.find?_cons_of_neg _ (by simp [ho]; exact fun h => hne h.symm),
        List.find?_cons_of_neg _ (by simp [ht]), ih]
    · rw [List.map_cons, if_neg ho]
      by_cases ht : e.1 = tbl
      · rw [List.find?_cons_of_pos _ (by simp [ht]),
          List.find?_cons_of_pos _ (by simp [ht])]
      · rw [List.find?_cons_of_neg _ (by simp [ht]),
          List.find?_cons_of_neg _ (by simp [ht]), ih]

/-- `dbStore` on a different table leaves a table's lookup unchanged. -/
theorem dbLookup_store_ne (db : List (String × TableState)) (tbl other : String)
    (v : Option TableState) (hne : tbl ≠ other) :
    dbLookup (dbStore db other v) tbl = dbLookup db tbl := by
  cases v with
  | none => rfl
  | some t =>
    simp only [dbStore]
    split
    · unfold dbLookup
      rw [find?_dbstore_ne other tbl hne t db]
    · unfold dbLookup
      rw [List.find?_append]
      have hsing : ([(other, t)] : List (String × TableState)).find?
          (fun e => e.1 = tbl) = none := by
        rw [List.find?_cons_of_neg _ (by simp; exact fun h => hne h.symm)]
        rfl
      rw [hsing]
      cases db.find? (fun e => e.1 = tbl) <;> rfl

/-- A mismatched non-empty table anywhere in the audited schema forces
the whole audit fold to report failure. -/
theorem auditFold_propagates (tbl : String) (ts : TableSchema) (cur : TableState)
    (hm : squish cur.createSql ≠ expectedTableSql tbl ts) (hr : cur.rows ≠ []) :
    ∀ (schema : List (String × TableSchema)) (db : List (String × TableState))
      (b : Bool), (schema.map Prod.fst).Nodup → (tbl, ts) ∈ schema →
      dbLookup db tbl = some cur →
      (schema.foldl
        (fun acc e =>
          let r := auditTable true e.1 e.2 (dbLookup acc.1 e.1)
          (dbStore acc.1 e.1 r.1, acc.2 && r.2))
        (db, b)).2 = false := by
  intro schema
  induction schema with
  | nil => intro db b _ hmem _; simp at hmem
  | cons e rest ih =>
    intro db b hnodup hmem hlook
    rw [List.foldl_cons]
    rcases List.mem_cons.mp hmem with heq | hmem2
    · subst heq
      dsimp only
      rw [hlook]
      have hfalse := (auditTable_mismatch_nonempty tbl ts cur hm hr).1
      rw [hfalse, Bool.and_false]
      exact auditFold_false_stays true rest _
    · have hn := hnodup
      simp only [List.map_cons, List.nodup_cons] at hn
      have hne : tbl ≠ e.1 := by
        intro h
        exact hn.1 (h ▸ List.mem_map_of_mem Prod.fst hmem2)
      dsimp only
      exact ih _ _ hn.2 hmem2
        ((dbLookup_store_ne db tbl e.1 _ hne).trans hlook)

/-- C7: auditing with repair enabled.  A table whose stored schema
mismatches the declared one is dropped and recreated only when it holds
no rows; a non-empty mismatched table keeps its rows and definition, is
flagged, and makes `auditDatabaseObjects` return `False`; a missing
index on a schema-matching table is recreated while the table's rows are
exactly what the seed re-insertion (performed for every matching table)
leaves, and its stored definition is untouched. -/
theorem c7_auditDatabaseObjects :
    (∀ tbl ts cur, squish cur.createSql ≠ expectedTableSql tbl ts →
      cur.rows ≠ [] →
      (auditTable true tbl ts (some cur)).2 = false ∧
      ∃ t', (auditTable true tbl ts (some cur)).1 = some t' ∧
        t'.rows = cur.rows ∧ t'.createSql = cur.createSql) ∧
    (∀ tbl ts cur, squish cur.createSql ≠ expectedTableSql tbl ts →
      cur.rows = [] →
      (auditTable true tbl ts (some cur)).2 = true ∧
      ∃ t', (auditTable true tbl ts (some cur)).1 = some t' ∧
        t'.createSql = expectedTableSql tbl ts ∧
        t'.rows = seedInsert [] ts.seedData) ∧
    (∀ tbl ts cur, squish cur.createSql = expectedTableSql tbl ts →
      (auditTable true tbl ts (some cur)).2 = true ∧
      ∃ t', (auditTable true tbl ts (some cur)).1 = some t' ∧
        t'.rows = seedInsert cur.rows ts.seedData ∧
        t'.createSql = cur.createSql ∧
        (∀ iname idef, (iname, idef) ∈ ts.index →
          (ts.index.map Prod.fst).Nodup →
          cur.indexSql.find? (fun v => v.1 = iname) = none →
          (iname, expectedIndexSql iname tbl idef) ∈ t'.indexSql)) ∧
    (∀ schema db tbl ts cur, (schema.map (Prod.fst : String × TableSchema → String)).Nodup →
      (tbl, ts) ∈ schema → dbLookup db tbl = some cur →
      squish cur.createSql ≠ expectedTableSql tbl ts → cur.rows ≠ [] →
      (auditDatabaseObjects true schema db).2 = false) := by
  refine ⟨auditTable_mismatch_nonempty, auditTable_mismatch_empty,
    auditTable_match, ?_⟩
  intro schema db tbl ts cur hnodup hmem hlook hm hr
  unfold auditDatabaseObjects
  exact auditFold_propagates tbl ts cur hm hr schema db true hnodup hmem hlook

end LOKI

namespace LOKI

/-- Witness for C7 on a one-table schema (ddl `(a INT)`, one seed row,
one index `i1`): a non-empty table stored with the wrong definition
fails its audit (and the whole-schema audit returns false) while an
empty one is recreated; a matching table with a missing index gets the
index created. -/
theorem c7_auditDatabaseObjects_witness :
    ((auditTable true "t" ⟨"(a INT)", ["seed"], [("i1", "(a)")]⟩
        (some ⟨"CREATE TABLE `t` (b INT)", ["r1"], []⟩)).2 = false) ∧
    ((auditTable true "t" ⟨"(a INT)", ["seed"], [("i1", "(a)")]⟩
        (some ⟨"CREATE TABLE `t` (b INT)", [], []⟩)).2 = true) ∧
    (∃ t', (auditTable true "t" ⟨"(a INT)", ["seed"], [("i1", "(a)")]⟩
        (some ⟨"CREATE TABLE `t` (a INT)", ["r1"], []⟩)).1 = some t' ∧
      ("i1", expectedIndexSql "i1" "t" "(a)") ∈ t'.indexSql) ∧
    ((auditDatabaseObjects true [("t", ⟨"(a INT)", ["seed"], [("i1", "(a)")]⟩)]
        [("t", ⟨"CREATE TABLE `t` (b INT)", ["r1"], []⟩)]).2 = false) := by
  refine ⟨?_, ?_, ?_, ?_⟩
  · exact (c7_auditDatabaseObjects.1 "t" _ _ (by decide) (by decide)).1
  · exact (c7_auditDatabaseObjects.2.1 "t" _ _ (by decide) (by decide)).1
  · obtain ⟨t', h1, h2, h3, h4⟩ := (c7_auditDatabaseObjects.2.2.1 "t"
      ⟨"(a INT)", ["seed"], [("i1", "(a)")]⟩
      ⟨"CREATE TABLE `t` (a INT)", ["r1"], []⟩ (by decide)).2
    exact ⟨t', h1, h4 "i1" "(a)" (by decide) (by decide) (by decide)⟩
  · exact c7_auditDatabaseObjects.2.2.2
      [("t", ⟨"(a INT)", ["seed"], [("i1", "(a)")]⟩)]
      [("t", ⟨"CREATE TABLE `t` (b INT)", ["r1"], []⟩)] "t"
      ⟨"(a INT)", ["seed"], [("i1", "(a)")]⟩
      ⟨"CREATE TABLE `t` (b INT)", ["r1"], []⟩ (by decide) (by decide)
      (by decide) (by decide) (by decide)

end LOKI

namespace Biofilter

/-- Each round of the permutation loop adds at most one to the total. -/
theorem parisPermutationFold_le_len (succeeds : Nat → Bool) (maxScore : Nat) :
    ∀ (l : List Nat) (acc : Nat × Bool),
      (l.foldl
        (fun (acc : Nat × Bool) p =>
          if acc.2 then acc
          else if succeeds p then
            (acc.1 + 1, decide (maxScore ≠ 0) && decide (acc.1 + 1 ≥ maxScore))
          else acc)
        acc).1 ≤ acc.1 + l.length := by
  intro l
  induction l with
  | nil => intro acc; simp
  | cons p rest ih =>
    intro acc
    rw [List.foldl_cons]
    by_cases h2 : acc.2
    · simp only [if_pos h2]
      exact (ih acc).trans (by simp only [List.length_cons]; omega)
    · simp only [if_neg h2]
      by_cases hs : succeeds p
      · simp only [if_pos hs]
        exact (ih _).trans (by simp only [List.length_cons]; omega)
      · simp only [if_neg hs]
        exact (ih acc).trans (by simp only [List.length_cons]; omega)

/-- With a nonzero `maxScore` the early-exit flag keeps the total at or
below `maxScore`. -/
theorem parisPermutationFold_le_max (succeeds : Nat → Bool) (maxScore : Nat)
    (hmax : maxScore ≠ 0) :
    ∀ (l : List Nat) (acc : Nat × Bool),
      acc.1 ≤ maxScore → (acc.2 = false → acc.1 < maxScore) →
      (l.foldl
        (fun (acc : Nat × Bool) p =>
          if acc.2 then acc
          else if succeeds p then
            (acc.1 + 1, decide (maxScore ≠ 0) && decide (acc.1 + 1 ≥ maxScore))
          else acc)
        acc).1 ≤ maxScore := by
  intro l
  induction l with
  | nil => intro acc h1 _; simpa using h1
  | cons p rest ih =>
    intro acc h1 h2
    rw [List.foldl_cons]
    by_cases hb : acc.2
    · simp only [if_pos hb]
      exact ih acc h1 h2
    · simp only [if_neg hb]
      have hlt : acc.1 < maxScore := h2 (by simpa using hb)
      by_cases hs : succeeds p
      · simp only [if_pos hs]
        refine ih _ (by simpa using hlt) ?_
        intro hflag
        simp only [Bool.and_eq_false_iff, decide_eq_false_iff_not] at hflag
        rcases hflag with h | h
        · exact absurd hmax h
        · omega
      · simp only [if_neg hs]
        exact ih acc h1 h2

/-- C10: `getPARISPermutationScore`.  When the observed score is zero (no
real feature in a truthy — present and nonzero — bin is significant), the
function returns `numPermutations` immediately, for every possible
sampler, so the reported p-value is 1 regardless of `maxScore`.  The
returned total never exceeds `numPermutations`; and when the observed
score is nonzero and `maxScore` is nonzero, the early exit keeps the
total at or below `maxScore` (which is stronger than the claim's bound of
`maxScore` plus the final round's successes). -/
theorem c10_getPARISPermutationScore (featureData : Nat → Nat × Nat)
    (featureBin : Nat → Option Nat) (sample : Nat → Nat → List Nat)
    (realFeatures : List Nat) (numPermutations maxScore : Nat) :
    (parisRealScore featureData featureBin realFeatures = 0 →
      getPARISPermutationScore featureData featureBin sample realFeatures
          numPermutations maxScore = numPermutations ∧
      ∀ sample2, getPARISPermutationScore featureData featureBin sample2
          realFeatures numPermutations maxScore = numPermutations) ∧
    getPARISPermutationScore featureData featureBin sample realFeatures
        numPermutations maxScore ≤ numPermutations ∧
    (parisRealScore featureData featureBin realFeatures ≠ 0 → maxScore ≠ 0 →
      getPARISPermutationScore featureData featureBin sample realFeatures
          numPermutations maxScore ≤ maxScore) := by
  refine ⟨?_, ?_, ?_⟩
  · intro h0
    constructor
    · rw [getPARISPermutationScore, if_pos (by omega)]
    · intro sample2
      rw [getPARISPermutationScore, if_pos (by omega)]
  · by_cases h0 : parisRealScore featureData featureBin realFeatures < 1
    · rw [getPARISPermutationScore, if_pos h0]
    · rw [getPARISPermutationScore, if_neg h0]
      refine (parisPermutationFold_le_len _ maxScore _ _).trans ?_
      simp
  · intro h0 hmax
    rw [getPARISPermutationScore, if_neg (by omega)]
    exact parisPermutationFold_le_max _ maxScore hmax _ _ (by omega)
      (fun _ => by omega)

/-- Witness for C10: a zero observed score returns `numPermutations = 3`
even though `maxScore = 1`; with a nonzero observed score and
`maxScore = 1` the total is bounded by both `numPermutations` and
`maxScore`. -/
theorem c10_getPARISPermutationScore_witness :
    getPARISPermutationScore (fun _ => (0, 0)) (fun _ => none)
        (fun _ _ => []) [1] 3 1 = 3 ∧
    getPARISPermutationScore (fun _ => (1, 1)) (fun _ => some 1)
        (fun _ _ => [0]) [0] 3 1 ≤ 3 ∧
    getPARISPermutationScore (fun _ => (1, 1)) (fun _ => some 1)
        (fun _ _ => [0]) [0] 3 1 ≤ 1 := by
  refine ⟨?_, ?_, ?_⟩
  · exact ((c10_getPARISPermutationScore (fun _ => (0, 0)) (fun _ => none)
      (fun _ _ => []) [1] 3 1).1 (by decide)).1
  · exact (c10_getPARISPermutationScore (fun _ => (1, 1)) (fun _ => some 1)
      (fun _ _ => [0]) [0] 3 1).2.1
  · exact (c10_getPARISPermutationScore (fun _ => (1, 1)) (fun _ => some 1)
      (fun _ _ => [0]) [0] 3 1).2.2 (by decide) (by decide)

end Biofilter

namespace Biofilter

/-- On a list sorted ascending by `count` whose members are all at least
`k`, taking the leading run of count-`k` elements captures exactly the
count-`k` elements, and everything after the run has a larger count. -/
theorem sorted_takeWhile_filter (count : Nat → Nat) (k : Nat) :
    ∀ l : List Nat, l.Sorted (fun a b => count a ≤ count b) →
      (∀ x ∈ l, k ≤ count x) →
      (l.takeWhile (fun f => count f = k) = l.filter (fun f => count f = k) ∧
        ∀ x ∈ l.dropWhile (fun f => count f = k), k < count x) := by
  intro l
  induction l with
  | nil => intro _ _; exact ⟨rfl, by simp⟩
  | cons a t ih =>
    intro hsort hmin
    have hst : t.Sorted (fun a b => count a ≤ count b) := hsort.of_cons
    have hrel := List.rel_of_sorted_cons hsort
    by_cases ha : count a = k
    · rw [List.takeWhile_cons_of_pos (by simp [ha]),
        List.dropWhile_cons_of_pos (by simp [ha]),
        List.filter_cons_of_pos (by simp [ha])]
      obtain ⟨h1, h2⟩ := ih hst (fun x hx => hmin x (List.mem_cons_of_mem _ hx))
      exact ⟨by rw [h1], h2⟩
    · have hka : k < count a :=
        lt_of_le_of_ne (hmin a (List.mem_cons_self _ _)) (fun h => ha h.symm)
      rw [List.takeWhile_cons_of_neg (by simp [ha]),
        List.dropWhile_cons_of_neg (by simp [ha])]
      have hfil : (a :: t).filter (fun f => count f = k) = [] := by
        rw [List.filter_eq_nil_iff]
        intro x hx
        rcases List.mem_cons.mp hx with rfl | hxt
        · simpa using fun h => ha h
        · have := hrel x hxt
          simp only [decide_eq_true_eq]
          omega
      rw [hfil]
      refine ⟨rfl, ?_⟩
      intro x hx
      rcases List.mem_cons.mp hx with rfl | hxt
      · exact hka
      · have := hrel x hxt
        omega

theorem splitSizes_length (sizes : List Nat) :
    ∀ l : List Nat, (splitSizes l sizes).length = sizes.length := by
  induction sizes with
  | nil => intro l; rfl
  | cons k rest ih =>
    intro l
    rw [splitSizes, List.length_cons, List.length_cons, ih]

theorem splitSizes_flatten (sizes : List Nat) :
    ∀ l : List Nat, sizes.sum = l.length → (splitSizes l sizes).flatten = l := by
  induction sizes with
  | nil =>
    intro l h
    rw [List.sum_nil] at h
    rw [splitSizes, List.flatten_nil, (List.length_eq_zero.mp h.symm)]
  | cons k rest ih =>
    intro l h
    rw [List.sum_cons] at h
    rw [splitSizes, List.flatten_cons, ih (l.drop k) (by rw [List.length_drop]; omega),
      List.take_append_drop]

theorem splitSizes_lengths (sizes : List Nat) :
    ∀ l : List Nat, sizes.sum ≤ l.length →
      (splitSizes l sizes).map List.length = sizes := by
  induction sizes with
  | nil => intro l _; rfl
  | cons k rest ih =>
    intro l h
    rw [List.sum_cons] at h
    rw [splitSizes, List.map_cons, List.length_take,
      ih (l.drop k) (by rw [List.length_drop]; omega)]
    congr 1
    omega

theorem sum_range_ite (e : Nat) :
    ∀ c : Nat, ((List.range c).map (fun i => if i < e then 1 else 0)).sum = min c e := by
  intro c
  induction c with
  | zero => simp
  | succ c ih =>
    rw [List.range_succ, List.map_append, List.sum_append, ih]
    by_cases h : c < e
    · simp [h]; omega
    · simp [h]; omega

theorem sum_map_add_const (s : Nat) (f : Nat → Nat) :
    ∀ c : Nat, ((List.range c).map (fun i => s + f i)).sum =
      c * s + ((List.range c).map f).sum := by
  intro c
  induction c with
  | zero => simp
  | succ c ih =>
    rw [List.range_succ, List.map_append, List.sum_append, ih,
      List.map_append, List.sum_append]
    simp [Nat.succ_mul]
    omega

theorem parisChunkSizes_sum (n binSize : Nat) :
    (parisChunkSizes n binSize).sum = n := by
  have hc : 0 < parisBinCount n binSize := by
    rw [parisBinCount]; omega
  have hdm := Nat.div_add_mod n (parisBinCount n binSize)
  have hmlt := Nat.mod_lt n hc
  rw [parisChunkSizes]
  rw [sum_map_add_const, sum_range_ite]
  omega

theorem parisChunkSizes_mem (n binSize k : Nat)
    (hk : k ∈ parisChunkSizes n binSize) :
    k = n / parisBinCount n binSize ∨ k = n / parisBinCount n binSize + 1 := by
  rw [parisChunkSizes] at hk
  obtain ⟨i, _, rfl⟩ := List.mem_map.mp hk
  split <;> omega


/-- C2 (amended): the PARIS binning.  Given the master feature list in
descending count order (so its reverse, which the embedding pops, is
ascending): bin 0 holds exactly the count-0 features, bin 1 exactly the
count-1 features, and the remaining `n` features are split into
`max(1, round(n / paris_bin_size))` — NOT `⌈n / paris_bin_size⌉` — bins
which partition them and whose cardinalities differ by at most one. -/
theorem c2_parisBinFeatures (count : Nat → Nat) (listFeatures : List Nat)
    (binSize : Nat)
    (hsort : listFeatures.reverse.Sorted (fun a b => count a ≤ count b)) :
    (parisBinFeatures count listFeatures binSize).bin0 =
      listFeatures.reverse.filter (fun f => count f = 0) ∧
    (parisBinFeatures count listFeatures binSize).bin1 =
      listFeatures.reverse.filter (fun f => count f = 1) ∧
    (parisBinFeatures count listFeatures binSize).rest.length =
      parisBinCount ((listFeatures.reverse.dropWhile (fun f => count f = 0)).dropWhile
        (fun f => count f = 1)).length binSize ∧
    (parisBinFeatures count listFeatures binSize).rest.flatten =
      (listFeatures.reverse.dropWhile (fun f => count f = 0)).dropWhile
        (fun f => count f = 1) ∧
    (∀ b1 ∈ (parisBinFeatures count listFeatures binSize).rest,
      ∀ b2 ∈ (parisBinFeatures count listFeatures binSize).rest,
        b1.length ≤ b2.length + 1) := by
  have h0 := sorted_takeWhile_filter count 0 listFeatures.reverse hsort
    (fun x _ => Nat.zero_le _)
  have hs1 : (listFeatures.reverse.dropWhile (fun f => count f = 0)).Sorted
      (fun a b => count a ≤ count b) :=
    List.Pairwise.sublist (List.dropWhile_sublist _) hsort
  have hmin1 : ∀ x ∈ listFeatures.reverse.dropWhile (fun f => count f = 0),
      1 ≤ count x := fun x hx => h0.2 x hx
  have h1 := sorted_takeWhile_filter count 1 _ hs1 hmin1
  have htw0 : (listFeatures.reverse.takeWhile (fun f => count f = 0)).filter
      (fun f => count f = 1) = [] := by
    rw [List.filter_eq_nil_iff]
    intro x hx
    have := List.mem_takeWhile_imp hx
    simp only [decide_eq_true_eq] at this ⊢
    omega
  have hfil1 : listFeatures.reverse.filter (fun f => count f = 1) =
      (listFeatures.reverse.dropWhile (fun f => count f = 0)).filter
        (fun f => count f = 1) := by
    conv_lhs => rw [← List.takeWhile_append_dropWhile
      (p := fun f => decide (count f = 0)) (l := listFeatures.reverse)]
    rw [List.filter_append, htw0, List.nil_append]
  have hsum : (parisChunkSizes ((listFeatures.reverse.dropWhile
      (fun f => count f = 0)).dropWhile (fun f => count f = 1)).length
        binSize).sum =
      ((listFeatures.reverse.dropWhile (fun f => count f = 0)).dropWhile
        (fun f => count f = 1)).length := parisChunkSizes_sum _ _
  refine ⟨?_, ?_, ?_, ?_, ?_⟩
  · simpa [parisBinFeatures] using h0.1
  · simp only [parisBinFeatures]
    rw [h1.1, hfil1]
  · simp only [parisBinFeatures, splitSizes_length, parisChunkSizes,
      List.length_map, List.length_range]
  · simp only [parisBinFeatures]
    exact splitSizes_flatten _ _ hsum
  · simp only [parisBinFeatures]
    intro b1 hb1 b2 hb2
    have hlens := splitSizes_lengths
      (parisChunkSizes ((listFeatures.reverse.dropWhile
        (fun f => count f = 0)).dropWhile (fun f => count f = 1)).length binSize)
      ((listFeatures.reverse.dropWhile (fun f => count f = 0)).dropWhile
        (fun f => count f = 1)) (le_of_eq hsum)
    have hm1 : b1.length ∈ parisChunkSizes ((listFeatures.reverse.dropWhile (fun f => count f = 0)).dropWhile
        (fun f => count f = 1)).length binSize := by
      rw [← hlens]
      exact List.mem_map_of_mem List.length hb1
    have hm2 : b2.length ∈ parisChunkSizes ((listFeatures.reverse.dropWhile (fun f => count f = 0)).dropWhile
        (fun f => count f = 1)).length binSize := by
      rw [← hlens]
      exact List.mem_map_of_mem List.length hb2
    rcases parisChunkSizes_mem _ _ _ hm1 with h | h <;>
      rcases parisChunkSizes_mem _ _ _ hm2 with h2 | h2 <;> omega


/-- Counterexample to C2 as stated: for counts {0,0,1,2,3,5,8} and
`paris_bin_size = 3` the four remaining features (counts 2,3,5,8) are
placed in ONE bin (`max(1, int(0.5 + 4/3)) = 1`), not the claimed
`⌈4/3⌉ = 2` bins {2,3} and {5,8}. -/
theorem c2_counterexample :
    (parisBinFeatures (fun f => [0, 8, 5, 3, 2, 1, 0, 0].getD f 0)
        [1, 2, 3, 4, 5, 6, 7] 3).rest = [[4, 3, 2, 1]] ∧
    (parisBinFeatures (fun f => [0, 8, 5, 3, 2, 1, 0, 0].getD f 0)
        [1, 2, 3, 4, 5, 6, 7] 3).rest.length = 1 ∧
    (4 + 3 - 1) / 3 = 2 ∧ (1 : Nat) ≠ 2 := by
  exact ⟨by decide, by decide, by decide, by decide⟩

/-- Witness for C2 (amended) at the spec's concrete scenario 6: features
1..7 with counts 8,5,3,2,1,0,0 (descending master list): the zero-bin is
{7,6}, the one-bin {5}, and the four remaining features form a single
distributed bin. -/
theorem c2_parisBinFeatures_witness :
    (parisBinFeatures (fun f => [0, 8, 5, 3, 2, 1, 0, 0].getD f 0)
        [1, 2, 3, 4, 5, 6, 7] 3).bin0 = [7, 6] ∧
    (parisBinFeatures (fun f => [0, 8, 5, 3, 2, 1, 0, 0].getD f 0)
        [1, 2, 3, 4, 5, 6, 7] 3).bin1 = [5] ∧
    (parisBinFeatures (fun f => [0, 8, 5, 3, 2, 1, 0, 0].getD f 0)
        [1, 2, 3, 4, 5, 6, 7] 3).rest.flatten = [4, 3, 2, 1] ∧
    (parisBinFeatures (fun f => [0, 8, 5, 3, 2, 1, 0, 0].getD f 0)
        [1, 2, 3, 4, 5, 6, 7] 3).rest.length =
      parisBinCount 4 3 := by
  have h := c2_parisBinFeatures (fun f => [0, 8, 5, 3, 2, 1, 0, 0].getD f 0)
    [1, 2, 3, 4, 5, 6, 7] 3 (by decide)
  refine ⟨?_, ?_, ?_, ?_⟩
  · rw [h.1]; decide
  · rw [h.2.1]; decide
  · rw [h.2.2.2.1]; decide
  · rw [h.2.2.1]; decide

end Biofilter

namespace LOKI

/-- The code's front clamp `max(0, min(start − old_start, old_end − old_start))`
is the amended claim's `clamp(start − first_seg.old_start, 0, length − 1)`. -/
theorem liftFrontDiff_eq_clamp (start : Int) (f : CandSeg) :
    liftFrontDiff start f = clamp (start - f.oldStart) 0 (segLength f - 1) := by
  unfold liftFrontDiff clamp segLength
  omega

theorem liftEndDiff_eq_clamp (stop : Int) (e : CandSeg) :
    liftEndDiff stop e = clamp (stop - e.oldStart) 0 (segLength e - 1) := by
  unfold liftEndDiff clamp segLength
  omega

theorem liftOverRegionUsingChains_eq_amended (start stop : Int)
    (f e : CandSeg) (total : Int) :
    liftOverRegionUsingChains start stop f e total =
      amendedMapRegion start stop f e total := by
  simp only [liftOverRegionUsingChains, amendedMapRegion, liftMappedSize]
  rw [← liftFrontDiff_eq_clamp, ← liftEndDiff_eq_clamp]
  rfl

theorem liftLoop_spec (start stop : Int) :
    ∀ (rest : List CandSeg) (f e : CandSeg) (total : Int),
      liftLoop start stop f e total rest =
        (match liftOverRegionUsingChains start stop f
            ((rest.takeWhile (fun x => x.chainId = f.chainId)).getLastD e)
            (total +
              ((rest.takeWhile (fun x => x.chainId = f.chainId)).map segLength).sum) with
          | some r => some r
          | none =>
            liftRegionChains start stop
              (rest.dropWhile (fun x => x.chainId = f.chainId))) := by
  intro rest
  induction rest with
  | nil =>
    intro f e total
    rw [liftLoop]
    simp only [List.takeWhile_nil, List.dropWhile_nil, List.getLastD_nil,
      List.map_nil, List.sum_nil, Int.add_zero]
    cases liftOverRegionUsingChains start stop f e total <;> rfl
  | cons s rest2 ih =>
    intro f e total
    by_cases hid : s.chainId = f.chainId
    · rw [liftLoop, if_neg (by simpa using hid),
        List.takeWhile_cons_of_pos (by simpa using hid),
        List.dropWhile_cons_of_pos (by simpa using hid)]
      have htot : total + s.oldEnd - s.oldStart + 1 = total + segLength s := by
        unfold segLength; ring
      rw [htot, ih f s (total + segLength s), List.getLastD_cons,
        List.map_cons, List.sum_cons]
      have hassoc : total + segLength s +
          ((rest2.takeWhile (fun x => x.chainId = f.chainId)).map segLength).sum =
          total + (segLength s +
            ((rest2.takeWhile (fun x => x.chainId = f.chainId)).map segLength).sum) := by
        ring
      rw [hassoc]
    · rw [liftLoop, if_pos (by simpa using hid),
        List.takeWhile_cons_of_neg (by simpa using hid),
        List.dropWhile_cons_of_neg (by simpa using hid)]
      simp only [List.getLastD_nil, List.map_nil, List.sum_nil, Int.add_zero]
      cases liftOverRegionUsingChains start stop f e total <;> rfl


/-- The segment loop of `generateLiftOverRegions`, characterized one
chain at a time: starting from an accumulated chain `(f, e, total)`, the
loop extends the accumulator over the rest of the current chain's run,
evaluates it, and on failure starts over on the remaining candidates. -/
theorem liftRegionChains_groups (start stop : Int) :
    ∀ (n : Nat) (segs : List CandSeg), segs.length ≤ n →
      liftRegionChains start stop segs =
        (chainGroups segs).findSome? (fun g =>
          amendedMapRegion start stop g.1 (groupLast g) (groupTotal g)) := by
  intro n
  induction n with
  | zero =>
    intro segs h
    have : segs = [] := List.eq_nil_of_length_eq_zero (Nat.le_zero.mp h)
    subst this
    rw [chainGroups]
    rfl
  | succ n ih =>
    intro segs h
    cases segs with
    | nil => rw [chainGroups]; rfl
    | cons s rest =>
      rw [show liftRegionChains start stop (s :: rest) =
          liftLoop start stop s s (s.oldEnd - s.oldStart + 1) rest from rfl]
      rw [show (s.oldEnd - s.oldStart + 1 : Int) = segLength s from rfl]
      rw [liftLoop_spec, chainGroups, List.findSome?_cons]
      simp only [groupLast, groupTotal]
      rw [liftOverRegionUsingChains_eq_amended]
      have hlen : (rest.dropWhile (fun x => x.chainId = s.chainId)).length ≤ n := by
        have h1 := List.Sublist.length_le (List.dropWhile_sublist
          (fun x => decide (x.chainId = s.chainId)) (l := rest))
        simp only [List.length_cons] at h
        omega
      cases hmap : amendedMapRegion start stop s
          ((rest.takeWhile (fun x => x.chainId = s.chainId)).getLastD s)
          (segLength s +
            ((rest.takeWhile (fun x => x.chainId = s.chainId)).map segLength).sum) with
      | some r => rfl
      | none => exact ih _ hlen


/-- C1 (amended): the region-mapping algorithm.  Each candidate chain is
evaluated via the amended per-chain mapping (`front_diff`/`end_diff`
clamped to `0..length − 1`, forward/reverse coordinate formulas, and
acceptance exactly when `mapped_size / (end − start + 1) ≥ 0.95`), and
the chain loop returns the first chain, in the generator's
score-descending order, whose mapping is accepted — trying the next
chain otherwise. -/
theorem c1_regionMapping :
    (∀ (start stop : Int) (f e : CandSeg) (total : Int),
      liftOverRegionUsingChains start stop f e total =
        amendedMapRegion start stop f e total) ∧
    (∀ (start stop : Int) (segs : List CandSeg),
      liftRegionChains start stop segs =
        (chainGroups segs).findSome? (fun g =>
          amendedMapRegion start stop g.1 (groupLast g) (groupTotal g))) :=
  ⟨liftOverRegionUsingChains_eq_amended,
    fun start stop segs => liftRegionChains_groups start stop segs.length segs le_rfl⟩

/-- Counterexample to C1 as stated: for the single segment `(0, 99, 0)`
(forward, new chromosome 7) and query `(0, 100)`, the claim's clamp
upper bound `length = 100` yields `end_diff = 100` and `new_end = 100`,
while the code clamps at `old_end − old_start = 99` and returns
`new_end = 99`. -/
theorem c1_counterexample :
    liftOverRegionUsingChains 0 100 clampSeg clampSeg 100 = some (7, 0, 99) ∧
    claimMapRegion 0 100 clampSeg clampSeg 100 = some (7, 0, 100) ∧
    (some ((7 : Int), (0 : Int), (99 : Int)) : Option (Int × Int × Int)) ≠
      some (7, 0, 100) := by
  exact ⟨by decide, by decide, by decide⟩

/-- Counterexample to C8 as stated: on the scenario chain the code
accumulates `total_mapped_sz = 501 + 401 = 902` (closed-interval segment
lengths) and computes `mapped_size = 902 − 200 − 401 + 200 + 1 = 502`,
not the claimed 501. -/
theorem c8_counterexample :
    segLength scenarioSeg1 + segLength scenarioSeg2 = 902 ∧
    liftMappedSize 1200 1800 scenarioSeg1 scenarioSeg2 902 = 502 ∧
    (502 : Int) ≠ 501 := by
  exact ⟨by decide, by decide, by decide⟩

/-- C8 (amended): the concrete liftOver scenario.  For the forward chain
`(old 1000..2000 → new 5000)` with segments `(1000, 1500, 5000)` and
`(1600, 2000, 5600)` and query `(1200, 1800)`, the generator yields both
segments, so `first_seg = (1000, 1500, 5000)`, `end_seg = (1600, 2000, 5600)`,
`front_diff = 200`, `end_diff = 200`, `new_start = 5200`, `new_end = 5800`,
`mapped_size = 502`; `502/601 < 0.95`, so the region is dropped (mapped
to `none`, reported to the error callback). -/
theorem c8_scenario :
    generateApplicableLiftOverChains [(scenarioChain, scenarioSegs)] 1200 1800 =
      [scenarioSeg1, scenarioSeg2] ∧
    liftFrontDiff 1200 scenarioSeg1 = 200 ∧
    liftEndDiff 1800 scenarioSeg2 = 200 ∧
    scenarioSeg1.newStart + liftFrontDiff 1200 scenarioSeg1 = 5200 ∧
    scenarioSeg2.newStart + liftEndDiff 1800 scenarioSeg2 = 5800 ∧
    liftMappedSize 1200 1800 scenarioSeg1 scenarioSeg2
      (segLength scenarioSeg1 + segLength scenarioSeg2) = 502 ∧
    ¬(20 * (502 : Int) ≥ 19 * (1800 - 1200 + 1)) ∧
    generateLiftOverRegion [(scenarioChain, scenarioSegs)] 1200 1800 = none := by
  refine ⟨by decide, by decide, by decide, by decide, by decide, by decide,
    by decide, by decide⟩

/-- Counterexample to C9 as stated: on a chain index holding the single
one-segment forward chain `(1..19 → 100)` on chromosome 9, the query
region `(1, 20)` is mapped to `(9, 100, 118)` by the database
implementation (`mapped_size = 19`, `19/20 = 0.95 ≥ 0.95`) but DROPPED
by the standalone implementation (`mapped_size = 18`, `18/19 < 0.95`):
the two implementations do not produce the same result. -/
theorem c9_counterexample :
    generateLiftOverRegion [(divergenceChain, divergenceSegs)] 1 20 =
      some (9, 100, 118) ∧
    StandaloneLiftOver.liftRegion [(divergenceChain, divergenceSegs)] 1 20 =
      none ∧
    (some ((9 : Int), (100 : Int), (118 : Int)) : Option (Int × Int × Int)) ≠
      none := by
  exact ⟨by decide, by decide, by decide⟩

/-- C9 (amended): the two implementations share the coordinate formulas
but not the accounting.  Whenever both per-chain mapping routines accept
a region with the same first and last overlapping segments (each with
its own accumulated total), they produce the same
`(new_chr, new_start, new_end)`; the mapped-size/threshold computations
differ (closed-interval vs half-open), so the accept/drop decisions —
and hence the overall results — can differ. -/
theorem c9_mapRegion_coords (start stop : Int) (f e : CandSeg)
    (t1 t2 : Int) (r1 r2 : Int × Int × Int)
    (h1 : StandaloneLiftOver.mapRegion start stop f e t1 = some r1)
    (h2 : liftOverRegionUsingChains start stop f e t2 = some r2) :
    r1 = r2 := by
  unfold StandaloneLiftOver.mapRegion at h1
  unfold liftOverRegionUsingChains at h2
  split_ifs at h1 h2 <;>
    first
      | (rw [Option.some.injEq] at h1 h2; rw [← h1, ← h2]; rfl)
      | simp_all

/-- Witness for C9 (amended): both implementations accept the segment
`(0, 99, 0)` for the query `(0, 99)` (with their respective totals 99
and 100) and map it to the same triple `(7, 0, 99)`. -/
theorem c9_mapRegion_coords_witness :
    StandaloneLiftOver.mapRegion 0 99 clampSeg clampSeg 99 = some (7, 0, 99) ∧
    liftOverRegionUsingChains 0 99 clampSeg clampSeg 100 = some (7, 0, 99) ∧
    StandaloneLiftOver.mapRegion 0 99 clampSeg clampSeg 99 =
      liftOverRegionUsingChains 0 99 clampSeg clampSeg 100 := by
  have h1 : StandaloneLiftOver.mapRegion 0 99 clampSeg clampSeg 99 =
      some (7, 0, 99) := by decide
  have h2 : liftOverRegionUsingChains 0 99 clampSeg clampSeg 100 =
      some (7, 0, 99) := by decide
  have h3 := c9_mapRegion_coords 0 99 clampSeg clampSeg 99 100
    (7, 0, 99) (7, 0, 99) h1 h2
  exact ⟨h1, h2, h1.trans (h3 ▸ h2.symm)⟩

end LOKI
